import Mathlib

/-!
# Buffer cache of `filesys/cache.c`

A shallow embedding of the block-level buffer cache (`src/filesys/cache.c`):
the 64-slot table `buffer_cache`, the clock cursor `hand`, the lookup
`is_in_cache`, the clock sweep `cache_evict_id`, slot acquisition
`cache_get_entry`, and the read and write paths.

Modelling conventions.

* The globals `buffer_cache`, `hand` and the device `fs_device` are the three
  fields of `cache_state`, passed explicitly.
* `block_sector_t` and `uint32_t` values are natural numbers; the only
  arithmetic the file performs on them, `(hand + 1) % BUFFER_CACHE_SIZE`, is
  written with its 32-bit wrap.
* A sector buffer `uint8_t data[BLOCK_SECTOR_SIZE]` is a map from byte index to
  byte; `memcpy` into it overwrites the index range it is given, `memcpy` out of
  it lists the bytes of the range.  `off_t` arguments are modelled on their
  non-negative range.
* The copies are those of the source for ranges inside the array, that is for
  `start + length ≤ BLOCK_SECTOR_SIZE`, and for `length = 0`, where nothing is
  copied.  A longer copy in the source runs past `data`, the last member of
  `struct cache_entry`, into the fields of the next slot; the embedding does
  not represent that, so the statements about slot fields after sequences of
  calls assume every call in bounds (`call_in_bounds`).
* The block device is a map from sector to sector content, together with the
  log of the `block_read` / `block_write` calls issued on it, oldest first.
* `lock_acquire` / `lock_release` and the condition variables have no effect on
  a single thread of control and are left out.
* `cache_evict_id` is a `while (1)` loop; it is modelled with an iteration
  budget (`fuel`) and returns `none` when the budget runs out.  The budget is
  threaded through every function that can reach the loop.
-/

namespace BufferCache

/-- The constant `BUFFER_CACHE_SIZE` of the source file. -/
def BUFFER_CACHE_SIZE : Nat := 64

/-- Modelled from the spec: `BLOCK_SECTOR_SIZE` is declared in
`devices/block.h`, which is not among the sources; the sector width is 512
bytes. -/
def BLOCK_SECTOR_SIZE : Nat := 512

/-- The constant `UINT32_MAX`, used as the sector id of an empty slot. -/
def UINT32_MAX : Nat := 4294967295

/-- The fields of `struct cache_entry` (locks and condition variables left out). -/
structure cache_entry where
  sector_id : Nat
  accessed : Bool
  dirty : Bool
  loading : Bool
  flushing : Bool
  AW : Nat
  AR : Nat
  WW : Nat
  WR : Nat
  data : Nat → Nat

/-- One call on the block device: `block_read (fs_device, sector, _)` or
`block_write (fs_device, sector, bytes)` with the 512 bytes written. -/
inductive block_op where
  | read (sector : Nat)
  | write (sector : Nat) (bytes : List Nat)
  deriving DecidableEq, Repr

/-- The block device: sector contents and the calls issued so far. -/
structure block_device where
  contents : Nat → Nat → Nat
  log : List block_op

/-- The globals of the file: the table, the clock cursor and the device. -/
structure cache_state where
  buffer_cache : Nat → cache_entry
  hand : Nat
  fs_device : block_device

/-- The bytes `src[start .. start + length)`, as `memcpy (buffer, src + start, length)`
leaves them in `buffer`, for a range inside the 512-byte array. -/
def memcpy_out (src : Nat → Nat) (start length : Nat) : List Nat :=
  (List.range length).map (fun i => src (start + i))

/-- The array `dst` after `memcpy (dst + start, buffer, length)`, for a range
inside the 512-byte array; a `buffer` shorter than `length` stands for one padded
with zero bytes. -/
def memcpy_in (dst : Nat → Nat) (start : Nat) (buffer : List Nat) (length : Nat) : Nat → Nat :=
  fun j => if start ≤ j ∧ j < start + length then buffer.getD (j - start) 0 else dst j

/-- The 512 bytes of a sector buffer, as handed to `block_write`. -/
def sector_bytes (data : Nat → Nat) : List Nat :=
  memcpy_out data 0 BLOCK_SECTOR_SIZE

/-- The call `block_read (dev, sector, buf)`: the sector content, and the device
with the call logged. -/
def block_read (dev : block_device) (sector : Nat) : (Nat → Nat) × block_device :=
  (dev.contents sector, { dev with log := dev.log ++ [block_op.read sector] })

/-- The call `block_write (dev, sector, data)`. -/
def block_write (dev : block_device) (sector : Nat) (data : Nat → Nat) : block_device :=
  { contents := fun t => if t = sector then data else dev.contents t
    log := dev.log ++ [block_op.write sector (sector_bytes data)] }

/-- The table with slot `i` replaced by `e`. -/
def set_entry (bc : Nat → cache_entry) (i : Nat) (e : cache_entry) : Nat → cache_entry :=
  fun j => if j = i then e else bc j

/-- The state `cache_init` leaves, over the device `dev`. -/
def cache_init (dev : block_device) : cache_state :=
  { buffer_cache := fun _ =>
      { sector_id := UINT32_MAX, accessed := false, dirty := false, loading := false,
        flushing := false, AW := 0, AR := 0, WW := 0, WR := 0, data := fun _ => 0 }
    hand := 0
    fs_device := dev }

/-- The lookup `is_in_cache`: the first index in `0 .. 63` whose slot names
`sector`, or `none` for the source's `-1`. -/
def is_in_cache (c : cache_state) (sector : Nat) : Option Nat :=
  (List.range BUFFER_CACHE_SIZE).find? (fun i => decide ((c.buffer_cache i).sector_id = sector))

/-- The cursor after `hand = (hand + 1) % BUFFER_CACHE_SIZE` on a `uint32_t`. -/
def next_hand (hand : Nat) : Nat :=
  ((hand + 1) % 4294967296) % BUFFER_CACHE_SIZE

/-- The clock sweep `cache_evict_id`, with at most `fuel` iterations of its loop:
the victim index and the state afterwards. -/
def cache_evict_id : Nat → cache_state → Option (Nat × cache_state)
  | 0, _ => none
  | fuel + 1, c =>
    if (c.buffer_cache c.hand).accessed then
      cache_evict_id fuel
        { c with
          buffer_cache :=
            set_entry c.buffer_cache c.hand { c.buffer_cache c.hand with accessed := false }
          hand := next_hand c.hand }
    else
      some (c.hand, { c with hand := next_hand c.hand })

/-- The slot acquisition `cache_get_entry`: the index of the slot returned and
the state afterwards. -/
def cache_get_entry (fuel : Nat) (c : cache_state) (sector_id : Nat) :
    Option (Nat × cache_state) :=
  match is_in_cache c sector_id with
  | none =>
    match cache_evict_id fuel c with
    | none => none
    | some (evict_id, c1) =>
      let dev :=
        if (c1.buffer_cache evict_id).dirty then
          block_write c1.fs_device (c1.buffer_cache evict_id).sector_id
            (c1.buffer_cache evict_id).data
        else c1.fs_device
      some (evict_id,
        { c1 with
          buffer_cache :=
            set_entry c1.buffer_cache evict_id
              { c1.buffer_cache evict_id with
                dirty := false, accessed := false, sector_id := sector_id }
          fs_device := dev })
  | some cache_hit_id => some (cache_hit_id, c)

/-- The hit path `cache_read_hit`: the bytes copied out and the state afterwards. -/
def cache_read_hit (c : cache_state) (start length cache_id : Nat) : List Nat × cache_state :=
  (memcpy_out (c.buffer_cache cache_id).data start length,
    { c with
      buffer_cache :=
        set_entry c.buffer_cache cache_id { c.buffer_cache cache_id with accessed := true } })

/-- The miss path `cache_read_miss`. -/
def cache_read_miss (fuel : Nat) (c : cache_state) (sector start length : Nat) :
    Option (List Nat × cache_state) :=
  match cache_get_entry fuel c sector with
  | none => none
  | some (cur, c1) =>
    let r := block_read c1.fs_device sector
    some (memcpy_out r.1 start length,
      { c1 with
        buffer_cache :=
          set_entry c1.buffer_cache cur
            { c1.buffer_cache cur with data := r.1, accessed := true }
        fs_device := r.2 })

/-- The function `cache_read_partial`. -/
def cache_read_partial (fuel : Nat) (c : cache_state) (sector start length : Nat) :
    Option (List Nat × cache_state) :=
  match is_in_cache c sector with
  | some cache_id_hit => some (cache_read_hit c start length cache_id_hit)
  | none => cache_read_miss fuel c sector start length

/-- The function `cache_read`. -/
def cache_read (fuel : Nat) (c : cache_state) (sector : Nat) : Option (List Nat × cache_state) :=
  cache_read_partial fuel c sector 0 BLOCK_SECTOR_SIZE

/-- The hit path `cache_write_hit`. -/
def cache_write_hit (c : cache_state) (buffer : List Nat) (start length cache_id : Nat) :
    cache_state :=
  { c with
    buffer_cache :=
      set_entry c.buffer_cache cache_id
        { c.buffer_cache cache_id with
          data := memcpy_in (c.buffer_cache cache_id).data start buffer length
          accessed := true, dirty := true } }

/-- The miss path `cache_write_miss`. -/
def cache_write_miss (fuel : Nat) (c : cache_state) (sector : Nat) (buffer : List Nat)
    (start length : Nat) : Option cache_state :=
  match cache_get_entry fuel c sector with
  | none => none
  | some (cur, c1) =>
    some
      { c1 with
        buffer_cache :=
          set_entry c1.buffer_cache cur
            { c1.buffer_cache cur with
              data := memcpy_in (c1.buffer_cache cur).data start buffer length
              accessed := true, dirty := true } }

/-- The function `cache_write_partial`. -/
def cache_write_partial (fuel : Nat) (c : cache_state) (sector : Nat) (buffer : List Nat)
    (start length : Nat) : Option cache_state :=
  match is_in_cache c sector with
  | some cache_id_hit => some (cache_write_hit c buffer start length cache_id_hit)
  | none => cache_write_miss fuel c sector buffer start length

/-- The function `cache_write`. -/
def cache_write (fuel : Nat) (c : cache_state) (sector : Nat) (buffer : List Nat) :
    Option cache_state :=
  cache_write_partial fuel c sector buffer 0 BLOCK_SECTOR_SIZE

/-- A slot with its `accessed` flag cleared, as the sweep leaves it. -/
def clear_accessed (e : cache_entry) : cache_entry := { e with accessed := false }

/-- A sample device: byte `j` of sector `s` is `(s + j) % 256`; nothing logged yet. -/
def sample_device : block_device :=
  { contents := fun s j => (s + j) % 256, log := [] }

/-- The device after the write-back step of `cache_get_entry` on victim `e`: one
`block_write` of the victim's sector when it is dirty, nothing otherwise. -/
def write_back (c : cache_state) (e : Nat) : block_device :=
  if (c.buffer_cache e).dirty then
    block_write c.fs_device (c.buffer_cache e).sector_id (c.buffer_cache e).data
  else c.fs_device

/-- A call of the cache API: `cache_read`, `cache_read_partial`, `cache_write`,
`cache_write_partial`, with its arguments. -/
inductive cache_call where
  | rd (sector : Nat)
  | rd_part (sector start length : Nat)
  | wr (sector : Nat) (buffer : List Nat)
  | wr_part (sector : Nat) (buffer : List Nat) (start length : Nat)

/-- One API call on the cache: the buffers it fills (one for a read, none for a
write) and the state afterwards. -/
def do_call (fuel : Nat) (c : cache_state) : cache_call → Option (List (List Nat) × cache_state)
  | .rd s => (cache_read fuel c s).map (fun r => ([r.1], r.2))
  | .rd_part s start length =>
    ( cache_read_partial fuel c s start length).map (fun r => ([r.1], r.2))
  | .wr s buffer => (cache_write fuel c s buffer).map (fun c1 => ([], c1))
  | .wr_part s buffer start length =>
    ( cache_write_partial fuel c s buffer start length).map (fun c1 => ([], c1))

/-- A sequence of API calls, one at a time: the buffers the reads fill, in order,
and the final state. -/
def run (fuel : Nat) : cache_state → List cache_call → Option (List (List Nat) × cache_state)
  | c, [] => some ([], c)
  | c, call :: rest =>
    match do_call fuel c call with
    | none => none
    | some (o, c1) =>
      match run fuel c1 rest with
      | none => none
      | some (os, c2) => some (o ++ os, c2)

/-- The state a sequence of calls leaves (the starting state if the loop budget
runs out on the way). -/
def state_after (fuel : Nat) (c : cache_state) (calls : List cache_call) : cache_state :=
  match run fuel c calls with
  | some r => r.2
  | none => c

/-- The cache-less reference: a write is applied to the device map directly, a
read is served from it. -/
def ref_call (dev : Nat → Nat → Nat) : cache_call → List (List Nat) × (Nat → Nat → Nat)
  | .rd s => ([memcpy_out (dev s) 0 BLOCK_SECTOR_SIZE], dev)
  | .rd_part s start length => ([memcpy_out (dev s) start length], dev)
  | .wr s buffer =>
    ([], fun t => if t = s then memcpy_in (dev s) 0 buffer BLOCK_SECTOR_SIZE else dev t)
  | .wr_part s buffer start length =>
    ([], fun t => if t = s then memcpy_in (dev s) start buffer length else dev t)

/-- The reference model on a sequence of calls. -/
def ref_run : (Nat → Nat → Nat) → List cache_call → List (List Nat) × (Nat → Nat → Nat)
  | dev, [] => ([], dev)
  | dev, call :: rest =>
    ((ref_call dev call).1 ++ (ref_run (ref_call dev call).2 rest).1,
      (ref_run (ref_call dev call).2 rest).2)

/-- The calls the transparency claim is about: full-sector writes and in-bounds
reads, on sectors other than the sentinel. -/
def transparent_call : cache_call → Prop
  | .rd s => s ≠ UINT32_MAX
  | .rd_part s start length => s ≠ UINT32_MAX ∧ start + length ≤ BLOCK_SECTOR_SIZE
  | .wr s _ => s ≠ UINT32_MAX
  | .wr_part _ _ _ _ => False

instance transparent_call_decidable (call : cache_call) : Decidable (transparent_call call) := by
  cases call <;> unfold transparent_call <;> infer_instance

/-- The logical content of a sector: the data of the slot naming it if there is
one, else the sector on the device. -/
def logical_content (c : cache_state) (s : Nat) : Nat → Nat :=
  match is_in_cache c s with
  | some i => (c.buffer_cache i).data
  | none => c.fs_device.contents s

/-- The calls `cache_read (0)`, ..., `cache_read (63)`. -/
def scenario_reads : List cache_call :=
  (List.range BUFFER_CACHE_SIZE).map cache_call.rd

/-- The state of Scenario B before its last read: a cold cache over the sample
device, sectors 0 to 63 read in order, then sector 0 overwritten with 512 bytes
of value 7. -/
def scenario_B_state : cache_state :=
  state_after 65 (cache_init sample_device)
    (scenario_reads ++ [cache_call.wr 0 (List.replicate BLOCK_SECTOR_SIZE 7)])

/-- A table state in which slot 0 has one active reader (`AR = 1`): otherwise as
`cache_init` leaves it. -/
def pinned_state : cache_state :=
  { cache_init sample_device with
    buffer_cache := fun i =>
      { (cache_init sample_device).buffer_cache i with AR := if i = 0 then 1 else 0 } }

/-- The state of Scenario C before its write: a cold cache over the sample
device on which sector 5 has been read. -/
def scenario_C_state : cache_state :=
  state_after 65 (cache_init sample_device) [cache_call.rd 5]

/-- The table after `cache_init` over `dev` and reads of sectors `0 .. k - 1` in
order, for `k ≤ 64`: slot `i < k` holds sector `i`, accessed and clean, the
slots from `k` on are still empty, the cursor stands at `k % 64`, and the device
has only been read. -/
def filled (k : Nat) (dev : block_device) (c : cache_state) : Prop :=
  c.hand = k % BUFFER_CACHE_SIZE ∧
  (∀ i, i < k → (c.buffer_cache i).sector_id = i ∧ (c.buffer_cache i).accessed = true ∧
    (c.buffer_cache i).dirty = false) ∧
  (∀ i, k ≤ i → (c.buffer_cache i).sector_id = UINT32_MAX ∧
    (c.buffer_cache i).accessed = false ∧ (c.buffer_cache i).dirty = false) ∧
  c.fs_device.contents = dev.contents ∧
  c.fs_device.log = dev.log ++ (List.range k).map block_op.read

/-- The simulation relation between a cache state and the reference device
`dev`: the cursor is in range, no real sector is named by two slots, a slot
naming a real sector holds the reference content of that sector, and the device
holds the reference content of every real sector that no dirty slot names. -/
def cache_sim (c : cache_state) (dev : Nat → Nat → Nat) : Prop :=
  c.hand < BUFFER_CACHE_SIZE ∧
  (∀ i k, i < BUFFER_CACHE_SIZE → k < BUFFER_CACHE_SIZE →
    (c.buffer_cache i).sector_id = (c.buffer_cache k).sector_id →
    (c.buffer_cache i).sector_id ≠ UINT32_MAX → i = k) ∧
  (∀ i, i < BUFFER_CACHE_SIZE → (c.buffer_cache i).sector_id ≠ UINT32_MAX →
    ∀ j, j < BLOCK_SECTOR_SIZE →
      (c.buffer_cache i).data j = dev (c.buffer_cache i).sector_id j) ∧
  (∀ s, s ≠ UINT32_MAX →
    (∀ i, i < BUFFER_CACHE_SIZE → (c.buffer_cache i).sector_id = s →
      (c.buffer_cache i).dirty = false) →
    ∀ j, j < BLOCK_SECTOR_SIZE → c.fs_device.contents s j = dev s j)

/-- The circular order in which the sweep visits the slots from cursor `h`:
`h, h + 1, ..., 63, 0, ..., h - 1`. -/
def clock_order (h : Nat) : List Nat :=
  (List.range BUFFER_CACHE_SIZE).map (fun i => (h + i) % BUFFER_CACHE_SIZE)

/-- The place of slot `j` in the circular order from cursor `h`. -/
def clock_pos (h j : Nat) : Nat :=
  (j + BUFFER_CACHE_SIZE - h) % BUFFER_CACHE_SIZE

/-- The first slot in circular order from the cursor whose `accessed` flag is
false, if there is one. -/
def clock_first (c : cache_state) : Option Nat :=
  (clock_order c.hand).find? (fun j => !(c.buffer_cache j).accessed)

/-- The reference victim of the clock sweep: the first slot in circular order
whose `accessed` flag is false, or the slot under the cursor if every slot is
accessed. -/
def clock_victim (c : cache_state) : Nat :=
  (clock_first c).getD c.hand

/-- The slots the reference sweep passes before its victim: those standing
before the victim in circular order, or all 64 slots when every slot is
accessed. -/
def clock_swept (c : cache_state) (j : Nat) : Bool :=
  decide (j < BUFFER_CACHE_SIZE) &&
    match clock_first c with
    | some r => decide (clock_pos c.hand j < clock_pos c.hand r)
    | none => true

/-- A table state for the sweep: the cursor at 62 and slots 62, 63 and 0
accessed, otherwise as `cache_init` leaves it. -/
def sweep_sample_state : cache_state :=
  { cache_init sample_device with
    hand := 62
    buffer_cache := fun i =>
      { (cache_init sample_device).buffer_cache i with
        accessed := decide (i = 62 ∨ i = 63 ∨ i = 0) } }

/-- The sector a call names. -/
def call_sector : cache_call → Nat
  | .rd s => s
  | .rd_part s _ _ => s
  | .wr s _ => s
  | .wr_part s _ _ _ => s

/-- Whether the byte range of a call lies within the sector. -/
def call_in_bounds : cache_call → Prop
  | .rd _ => True
  | .rd_part _ start length => start + length ≤ BLOCK_SECTOR_SIZE
  | .wr _ _ => True
  | .wr_part _ _ start length => start + length ≤ BLOCK_SECTOR_SIZE

instance call_in_bounds_decidable (call : cache_call) : Decidable (call_in_bounds call) := by
  cases call <;> unfold call_in_bounds <;> infer_instance

/-- Whether a call is a `cache_read` or a `cache_read_partial`. -/
def call_is_read : cache_call → Bool
  | .rd _ => true
  | .rd_part _ _ _ => true
  | .wr _ _ => false
  | .wr_part _ _ _ _ => false

/-- Dirty slots hold real sectors, and the device calls issued since `cache_init`
over `dev` hold no write to the sentinel sector. -/
def dirty_inv (dev : block_device) (c : cache_state) : Prop :=
  c.hand < BUFFER_CACHE_SIZE ∧
  (∀ j, (c.buffer_cache j).dirty = true → (c.buffer_cache j).sector_id ≠ UINT32_MAX) ∧
  ∃ extra, c.fs_device.log = dev.log ++ extra ∧
    ∀ t b, block_op.write t b ∈ extra → t ≠ UINT32_MAX

/-- No slot is dirty, the device holds what `dev` held, and the device calls
issued since `cache_init` over `dev` are all reads. -/
def read_only_inv (dev : block_device) (c : cache_state) : Prop :=
  c.hand < BUFFER_CACHE_SIZE ∧
  (∀ j, (c.buffer_cache j).dirty = false) ∧
  c.fs_device.contents = dev.contents ∧
  ∃ extra, c.fs_device.log = dev.log ++ extra ∧ ∀ op, op ∈ extra → ∃ t, op = block_op.read t

/-- The table while it fills: for some `k ≤ 64` the slots below `k` name real
sectors and the slots from `k` on are unused, never accessed and clean; while
`k < 64` the cursor stands at `k`. -/
def fill_inv (c : cache_state) : Prop :=
  c.hand < BUFFER_CACHE_SIZE ∧
  ∃ k, k ≤ BUFFER_CACHE_SIZE ∧ (k < BUFFER_CACHE_SIZE → c.hand = k) ∧
    (∀ i, i < k → (c.buffer_cache i).sector_id ≠ UINT32_MAX) ∧
    (∀ i, k ≤ i → (c.buffer_cache i).sector_id = UINT32_MAX ∧
      (c.buffer_cache i).accessed = false ∧ (c.buffer_cache i).dirty = false)

/-! ## Lookup and sweep lemmas -/

theorem is_in_cache_eq_none {c : cache_state} {s : Nat} :
    is_in_cache c s = none ↔ ∀ i, i < BUFFER_CACHE_SIZE → (c.buffer_cache i).sector_id ≠ s := by
  unfold is_in_cache
  rw [List.find?_range_eq_none]
  simp

theorem is_in_cache_eq_some {c : cache_state} {s i : Nat} :
    is_in_cache c s = some i ↔
      i < BUFFER_CACHE_SIZE ∧ (c.buffer_cache i).sector_id = s ∧
        ∀ j, j < i → (c.buffer_cache j).sector_id ≠ s := by
  unfold is_in_cache
  rw [List.find?_range_eq_some]
  simp
  tauto

theorem is_in_cache_congr {c c1 : cache_state} (s : Nat)
    (h : ∀ i, i < BUFFER_CACHE_SIZE → (c1.buffer_cache i).sector_id = (c.buffer_cache i).sector_id) :
    is_in_cache c1 s = is_in_cache c s := by
  cases h1 : is_in_cache c s with
  | none =>
    rw [is_in_cache_eq_none] at h1 ⊢
    intro i hi
    rw [h i hi]
    exact h1 i hi
  | some k =>
    rw [is_in_cache_eq_some] at h1 ⊢
    obtain ⟨hk, hs, hlow⟩ := h1
    refine ⟨hk, by rw [h k hk]; exact hs, fun j hj => ?_⟩
    rw [h j (Nat.lt_trans hj hk)]
    exact hlow j hj

theorem next_hand_lt (h : Nat) : next_hand h < BUFFER_CACHE_SIZE := by
  unfold next_hand BUFFER_CACHE_SIZE
  omega

theorem clear_accessed_idem (e : cache_entry) : clear_accessed (clear_accessed e) = clear_accessed e := rfl

/-- More fuel does not change a result of the sweep. -/
theorem cache_evict_id_mono (fuel k : Nat) (c : cache_state) (x : Nat × cache_state)
    (h : cache_evict_id fuel c = some x) : cache_evict_id (fuel + k) c = some x := by
  induction fuel generalizing c with
  | zero => simp [cache_evict_id] at h
  | succ n ih =>
    rw [Nat.add_right_comm]
    unfold cache_evict_id at h ⊢
    split
    · rename_i ha
      rw [if_pos ha] at h
      exact ih _ h
    · rename_i ha
      rw [if_neg ha] at h
      exact h

/-- The sweep returns once the slots behind the cursor are known to be clear:
`m` bounds the number of slots that may still be accessed. -/
theorem cache_evict_id_aux (m : Nat) :
    ∀ (fuel : Nat) (c : cache_state), c.hand < BUFFER_CACHE_SIZE → m ≤ BUFFER_CACHE_SIZE →
      (∀ i, i < BUFFER_CACHE_SIZE - m →
        (c.buffer_cache ((c.hand + 63 - i) % BUFFER_CACHE_SIZE)).accessed = false) →
      m + 1 ≤ fuel →
      ∃ r c1, cache_evict_id fuel c = some (r, c1) ∧ r < BUFFER_CACHE_SIZE ∧
        c1.hand = next_hand r ∧ c1.fs_device = c.fs_device ∧
        (c1.buffer_cache r).accessed = false ∧
        ∀ j, c1.buffer_cache j = c.buffer_cache j ∨
          c1.buffer_cache j = clear_accessed (c.buffer_cache j) := by
  induction m with
  | zero =>
    intro fuel c hh _ hclr hf
    obtain ⟨n, rfl⟩ : ∃ n, fuel = n + 1 := ⟨fuel - 1, by omega⟩
    have h0 : (c.buffer_cache c.hand).accessed = false := by
      have := hclr 63 (by unfold BUFFER_CACHE_SIZE; omega)
      have e : (c.hand + 63 - 63) % BUFFER_CACHE_SIZE = c.hand := by
        unfold BUFFER_CACHE_SIZE at hh ⊢
        omega
      rwa [e] at this
    refine ⟨c.hand, { c with hand := next_hand c.hand }, ?_, hh, rfl, rfl, h0, fun j => Or.inl rfl⟩
    unfold cache_evict_id
    simp [h0]
  | succ m ih =>
    intro fuel c hh hm hclr hf
    obtain ⟨n, rfl⟩ : ∃ n, fuel = n + 1 := ⟨fuel - 1, by omega⟩
    by_cases h0 : (c.buffer_cache c.hand).accessed = true
    · have hstep : cache_evict_id (n + 1) c = cache_evict_id n
          { c with
            buffer_cache :=
              set_entry c.buffer_cache c.hand { c.buffer_cache c.hand with accessed := false }
            hand := next_hand c.hand } := by
        conv_lhs => unfold cache_evict_id
        simp [h0]
      obtain ⟨r, c1, he, hr, hhand, hdev, hacc, hfr⟩ :=
        ih n
          { c with
            buffer_cache :=
              set_entry c.buffer_cache c.hand { c.buffer_cache c.hand with accessed := false }
            hand := next_hand c.hand }
          (next_hand_lt c.hand) (by omega) (by
          intro i hi
          dsimp only
          unfold set_entry
          split
          · rfl
          · rename_i hne
            have hi0 : i ≠ 0 := by
              rintro rfl
              apply hne
              unfold next_hand BUFFER_CACHE_SIZE at *
              omega
            have := hclr (i - 1) (by omega)
            have e : (next_hand c.hand + 63 - i) % BUFFER_CACHE_SIZE
                = (c.hand + 63 - (i - 1)) % BUFFER_CACHE_SIZE := by
              unfold next_hand BUFFER_CACHE_SIZE at *
              omega
            rw [e]
            exact this) (by omega)
      refine ⟨r, c1, by rw [hstep]; exact he, hr, hhand, hdev, hacc, fun j => ?_⟩
      rcases hfr j with h | h
      · rw [h]
        show set_entry c.buffer_cache c.hand _ j = _ ∨ set_entry c.buffer_cache c.hand _ j = _
        unfold set_entry
        split
        · rename_i hj
          subst hj
          exact Or.inr rfl
        · exact Or.inl rfl
      · rw [h]
        show clear_accessed (set_entry c.buffer_cache c.hand _ j) = _ ∨
          clear_accessed (set_entry c.buffer_cache c.hand _ j) = _
        unfold set_entry
        split
        · rename_i hj
          subst hj
          exact Or.inr rfl
        · exact Or.inr rfl
    · have h0f : (c.buffer_cache c.hand).accessed = false := by simpa using h0
      refine ⟨c.hand, { c with hand := next_hand c.hand }, ?_, hh, rfl, rfl, h0f,
        fun j => Or.inl rfl⟩
      unfold cache_evict_id
      simp [h0f]

/-- The sweep terminates from any state with the cursor in range, within 65
iterations, and changes nothing but `accessed` flags and the cursor. -/
theorem cache_evict_id_total (fuel : Nat) (c : cache_state) (hh : c.hand < BUFFER_CACHE_SIZE)
    (hf : BUFFER_CACHE_SIZE + 1 ≤ fuel) :
    ∃ r c1, cache_evict_id fuel c = some (r, c1) ∧ r < BUFFER_CACHE_SIZE ∧
      c1.hand = next_hand r ∧ c1.fs_device = c.fs_device ∧
      (c1.buffer_cache r).accessed = false ∧
      ∀ j, c1.buffer_cache j = c.buffer_cache j ∨
        c1.buffer_cache j = clear_accessed (c.buffer_cache j) :=
  cache_evict_id_aux BUFFER_CACHE_SIZE fuel c hh (Nat.le_refl _)
    (fun i hi => absurd hi (by simp)) hf

/-! ## The sweep over a run of accessed slots -/

theorem cache_evict_id_accessed (fuel : Nat) (c : cache_state)
    (h : (c.buffer_cache c.hand).accessed = true) :
    cache_evict_id (fuel + 1) c =
      cache_evict_id fuel
        { c with
          buffer_cache :=
            set_entry c.buffer_cache c.hand { c.buffer_cache c.hand with accessed := false }
          hand := next_hand c.hand } := by
  conv_lhs => unfold cache_evict_id
  simp [h]

theorem cache_evict_id_unaccessed (fuel : Nat) (c : cache_state)
    (h : (c.buffer_cache c.hand).accessed = false) :
    cache_evict_id (fuel + 1) c = some (c.hand, { c with hand := next_hand c.hand }) := by
  unfold cache_evict_id
  simp [h]

/-- If the `n` slots from the cursor on (in circular order) are all accessed, the
first `n` iterations of the sweep clear exactly those and move the cursor `n`
places. -/
theorem cache_evict_id_prefix (n : Nat) :
    ∀ (fuel : Nat) (c : cache_state), c.hand < BUFFER_CACHE_SIZE → n ≤ BUFFER_CACHE_SIZE →
      (∀ i, i < n → (c.buffer_cache ((c.hand + i) % BUFFER_CACHE_SIZE)).accessed = true) →
      ∃ c1 : cache_state, c1.hand = (c.hand + n) % BUFFER_CACHE_SIZE ∧
        c1.fs_device = c.fs_device ∧
        (∀ j, c1.buffer_cache j =
          if j < BUFFER_CACHE_SIZE ∧ (j + BUFFER_CACHE_SIZE - c.hand) % BUFFER_CACHE_SIZE < n
          then clear_accessed (c.buffer_cache j) else c.buffer_cache j) ∧
        cache_evict_id (n + fuel) c = cache_evict_id fuel c1 := by
  induction n with
  | zero =>
    intro fuel c hh _ _
    refine ⟨c, ?_, rfl, fun j => ?_, by rw [Nat.zero_add]⟩
    · unfold BUFFER_CACHE_SIZE at *
      omega
    · rw [if_neg]
      omega
  | succ n ih =>
    intro fuel c hh hn hacc
    have h0 : (c.buffer_cache c.hand).accessed = true := by
      have := hacc 0 (by omega)
      have e : (c.hand + 0) % BUFFER_CACHE_SIZE = c.hand := by
        unfold BUFFER_CACHE_SIZE at *
        omega
      rwa [e] at this
    obtain ⟨c1, h1, h2, h3, h4⟩ := ih fuel
      { c with
        buffer_cache :=
          set_entry c.buffer_cache c.hand { c.buffer_cache c.hand with accessed := false }
        hand := next_hand c.hand }
      (next_hand_lt c.hand) (by omega) (by
        intro i hi
        dsimp only
        unfold set_entry
        have e : (next_hand c.hand + i) % BUFFER_CACHE_SIZE
            = (c.hand + (i + 1)) % BUFFER_CACHE_SIZE := by
          unfold next_hand BUFFER_CACHE_SIZE at *
          omega
        rw [e, if_neg]
        · exact hacc (i + 1) (by omega)
        · unfold BUFFER_CACHE_SIZE at *
          omega)
    refine ⟨c1, ?_, h2, fun j => ?_, ?_⟩
    · rw [h1]
      dsimp only
      unfold next_hand BUFFER_CACHE_SIZE at *
      omega
    · rw [h3]
      dsimp only
      unfold set_entry
      by_cases hj : j = c.hand
      · subst hj
        have hcond : c.hand < BUFFER_CACHE_SIZE ∧
            (c.hand + BUFFER_CACHE_SIZE - c.hand) % BUFFER_CACHE_SIZE < n + 1 := by
          refine ⟨hh, ?_⟩
          unfold BUFFER_CACHE_SIZE
          omega
        rw [if_pos hcond]
        simp only [if_true]
        split <;> rfl
      · rw [if_neg hj]
        have e : (j < BUFFER_CACHE_SIZE ∧
              (j + BUFFER_CACHE_SIZE - next_hand c.hand) % BUFFER_CACHE_SIZE < n) ↔
            (j < BUFFER_CACHE_SIZE ∧
              (j + BUFFER_CACHE_SIZE - c.hand) % BUFFER_CACHE_SIZE < n + 1) := by
          unfold next_hand BUFFER_CACHE_SIZE at *
          omega
        simp only [e]
    · rw [← h4, Nat.add_right_comm, cache_evict_id_accessed _ c h0]

/-- With every slot accessed the sweep clears all 64 flags and returns the slot
it started from. -/
theorem cache_evict_id_all_accessed (fuel : Nat) (c : cache_state)
    (hh : c.hand < BUFFER_CACHE_SIZE) (hf : BUFFER_CACHE_SIZE + 1 ≤ fuel)
    (hacc : ∀ i, i < BUFFER_CACHE_SIZE → (c.buffer_cache i).accessed = true) :
    ∃ c1 : cache_state, cache_evict_id fuel c = some (c.hand, c1) ∧
      c1.hand = next_hand c.hand ∧ c1.fs_device = c.fs_device ∧
      ∀ j, c1.buffer_cache j =
        if j < BUFFER_CACHE_SIZE then clear_accessed (c.buffer_cache j) else c.buffer_cache j := by
  obtain ⟨k, rfl⟩ : ∃ k, fuel = BUFFER_CACHE_SIZE + (k + 1) := ⟨fuel - 65, by
    unfold BUFFER_CACHE_SIZE at *
    omega⟩
  obtain ⟨c1, h1, h2, h3, h4⟩ := cache_evict_id_prefix BUFFER_CACHE_SIZE (k + 1) c hh
    (Nat.le_refl _) (fun i _ => hacc _ (Nat.mod_lt _ (by decide)))
  have hc1 : c1.hand = c.hand := by
    rw [h1]
    unfold BUFFER_CACHE_SIZE at *
    omega
  have hclr : (c1.buffer_cache c1.hand).accessed = false := by
    rw [h3, hc1, if_pos]
    · rfl
    · exact ⟨hh, Nat.mod_lt _ (by decide)⟩
  refine ⟨{ c1 with hand := next_hand c1.hand }, ?_, by rw [hc1], h2, fun j => ?_⟩
  · rw [h4, cache_evict_id_unaccessed k c1 hclr, hc1]
  · dsimp only
    rw [h3]
    by_cases hj : j < BUFFER_CACHE_SIZE
    · rw [if_pos hj, if_pos ⟨hj, Nat.mod_lt _ (by decide)⟩]
    · rw [if_neg hj, if_neg (fun h => hj h.1)]

/-! ## Slot acquisition -/

theorem cache_get_entry_hit (fuel : Nat) (c : cache_state) (s i : Nat)
    (h : is_in_cache c s = some i) : cache_get_entry fuel c s = some (i, c) := by
  unfold cache_get_entry
  rw [h]

/-- On a miss `cache_get_entry` takes the victim of the sweep, writes it back
when dirty, and renames it; the other slots keep everything but `accessed`. -/
theorem cache_get_entry_miss (fuel : Nat) (c : cache_state) (s : Nat)
    (hh : c.hand < BUFFER_CACHE_SIZE) (hf : BUFFER_CACHE_SIZE + 1 ≤ fuel)
    (hm : is_in_cache c s = none) :
    ∃ e c1 c2, cache_evict_id fuel c = some (e, c1) ∧ cache_get_entry fuel c s = some (e, c2) ∧
      e < BUFFER_CACHE_SIZE ∧ c2.hand = next_hand e ∧
      c2.buffer_cache e =
        { c.buffer_cache e with dirty := false, accessed := false, sector_id := s } ∧
      (∀ j, j ≠ e → c2.buffer_cache j = c.buffer_cache j ∨
        c2.buffer_cache j = clear_accessed (c.buffer_cache j)) ∧
      c2.fs_device =
        if (c.buffer_cache e).dirty then
          block_write c.fs_device (c.buffer_cache e).sector_id (c.buffer_cache e).data
        else c.fs_device := by
  obtain ⟨e, c1, he, hlt, hhand, hdev, _, hfr⟩ := cache_evict_id_total fuel c hh hf
  have hslot : ∀ j, (c1.buffer_cache j).sector_id = (c.buffer_cache j).sector_id ∧
      (c1.buffer_cache j).dirty = (c.buffer_cache j).dirty ∧
      (c1.buffer_cache j).data = (c.buffer_cache j).data := by
    intro j
    rcases hfr j with h | h <;> rw [h] <;> exact ⟨rfl, rfl, rfl⟩
  have hget : cache_get_entry fuel c s = some (e,
      { c1 with
        buffer_cache :=
          set_entry c1.buffer_cache e
            { c1.buffer_cache e with dirty := false, accessed := false, sector_id := s }
        fs_device :=
          if (c1.buffer_cache e).dirty then
            block_write c1.fs_device (c1.buffer_cache e).sector_id (c1.buffer_cache e).data
          else c1.fs_device }) := by
    unfold cache_get_entry
    rw [hm]
    simp only [he]
  refine ⟨e, c1, _, he, hget, hlt, hhand, ?_, ?_, ?_⟩
  · dsimp only
    unfold set_entry
    rw [if_pos rfl]
    rcases hfr e with h | h
    · rw [h]
    · rw [h]
      rfl
  · intro j hj
    dsimp only
    unfold set_entry
    rw [if_neg hj]
    exact hfr j
  · dsimp only
    rw [(hslot e).1, (hslot e).2.1, (hslot e).2.2, hdev]

/-! ## What a returned call leaves unchanged -/

/-- Whatever the budget, a sweep that returns has changed nothing but `accessed`
flags and the cursor, and its victim is not accessed. -/
theorem cache_evict_id_frame (fuel : Nat) :
    ∀ (c : cache_state) (r : Nat) (c1 : cache_state), cache_evict_id fuel c = some (r, c1) →
      c1.hand = next_hand r ∧ c1.fs_device = c.fs_device ∧
      (c1.buffer_cache r).accessed = false ∧ (c.hand < BUFFER_CACHE_SIZE → r < BUFFER_CACHE_SIZE) ∧
      ∀ j, c1.buffer_cache j = c.buffer_cache j ∨
        c1.buffer_cache j = clear_accessed (c.buffer_cache j) := by
  induction fuel with
  | zero =>
    intro c r c1 h
    simp [cache_evict_id] at h
  | succ n ih =>
    intro c r c1 h
    by_cases h0 : (c.buffer_cache c.hand).accessed = true
    · rw [cache_evict_id_accessed n c h0] at h
      obtain ⟨h1, h2, h3, h4, h5⟩ := ih _ r c1 h
      refine ⟨h1, h2, h3, fun _ => h4 (next_hand_lt c.hand), fun j => ?_⟩
      rcases h5 j with h | h
      · rw [h]
        dsimp only
        unfold set_entry
        split
        · rename_i hj
          subst hj
          exact Or.inr rfl
        · exact Or.inl rfl
      · rw [h]
        dsimp only
        unfold set_entry
        split
        · rename_i hj
          subst hj
          exact Or.inr rfl
        · exact Or.inr rfl
    · have h0f : (c.buffer_cache c.hand).accessed = false := by simpa using h0
      rw [cache_evict_id_unaccessed n c h0f] at h
      simp only [Option.some.injEq, Prod.mk.injEq] at h
      obtain ⟨rfl, rfl⟩ := h
      exact ⟨rfl, rfl, h0f, fun hh => hh, fun j => Or.inl rfl⟩

/-- A `cache_get_entry` that returns on a miss: the victim is renamed and made
clean, the device has had the write-back, the other slots keep everything but
`accessed`. -/
theorem cache_get_entry_miss_frame (fuel : Nat) (c : cache_state) (s e : Nat) (c2 : cache_state)
    (hm : is_in_cache c s = none) (hg : cache_get_entry fuel c s = some (e, c2)) :
    (∃ c1, cache_evict_id fuel c = some (e, c1)) ∧
      (c.hand < BUFFER_CACHE_SIZE → e < BUFFER_CACHE_SIZE) ∧ c2.hand = next_hand e ∧
      c2.buffer_cache e =
        { c.buffer_cache e with dirty := false, accessed := false, sector_id := s } ∧
      (∀ j, j ≠ e → c2.buffer_cache j = c.buffer_cache j ∨
        c2.buffer_cache j = clear_accessed (c.buffer_cache j)) ∧
      c2.fs_device = write_back c e := by
  unfold cache_get_entry at hg
  rw [hm] at hg
  cases hev : cache_evict_id fuel c with
  | none => simp [hev] at hg
  | some x =>
    obtain ⟨r, c1⟩ := x
    simp only [hev, Option.some.injEq, Prod.mk.injEq] at hg
    obtain ⟨rfl, rfl⟩ := hg
    obtain ⟨h1, h2, _, h4, h5⟩ := cache_evict_id_frame fuel c r c1 hev
    have hslot : (c1.buffer_cache r).sector_id = (c.buffer_cache r).sector_id ∧
        (c1.buffer_cache r).dirty = (c.buffer_cache r).dirty ∧
        (c1.buffer_cache r).data = (c.buffer_cache r).data := by
      rcases h5 r with h | h <;> rw [h] <;> exact ⟨rfl, rfl, rfl⟩
    refine ⟨⟨c1, rfl⟩, h4, h1, ?_, ?_, ?_⟩
    · dsimp only
      unfold set_entry
      rw [if_pos rfl]
      rcases h5 r with h | h
      · rw [h]
      · rw [h]
        rfl
    · intro j hj
      dsimp only
      unfold set_entry
      rw [if_neg hj]
      exact h5 j
    · dsimp only
      unfold write_back
      rw [hslot.1, hslot.2.1, hslot.2.2, h2]

/-! ## Copies -/

theorem memcpy_out_length (src : Nat → Nat) (start length : Nat) :
    (memcpy_out src start length).length = length := by
  simp [memcpy_out]

theorem memcpy_out_getElem (src : Nat → Nat) (start length n : Nat)
    (h : n < (memcpy_out src start length).length) :
    (memcpy_out src start length)[n] = src (start + n) := by
  simp [memcpy_out]

theorem memcpy_in_inside (dst : Nat → Nat) (start : Nat) (buffer : List Nat) (length j : Nat)
    (h1 : start ≤ j) (h2 : j < start + length) :
    memcpy_in dst start buffer length j = buffer.getD (j - start) 0 := by
  unfold memcpy_in
  rw [if_pos ⟨h1, h2⟩]

theorem memcpy_in_outside (dst : Nat → Nat) (start : Nat) (buffer : List Nat) (length j : Nat)
    (h : j < start ∨ start + length ≤ j) :
    memcpy_in dst start buffer length j = dst j := by
  unfold memcpy_in
  rw [if_neg]
  omega

/-- Copying a range out right after copying a buffer into it gives the buffer
back. -/
theorem memcpy_out_in (dst : Nat → Nat) (start : Nat) (buffer : List Nat) (length : Nat)
    (hl : length ≤ buffer.length) :
    memcpy_out (memcpy_in dst start buffer length) start length = buffer.take length := by
  apply List.ext_getElem
  · rw [memcpy_out_length, List.length_take]
    omega
  · intro n h1 h2
    rw [memcpy_out_getElem, List.getElem_take]
    rw [memcpy_out_length] at h1
    rw [memcpy_in_inside _ _ _ _ _ (by omega) (by omega)]
    have e : start + n - start = n := by omega
    rw [e, List.getD_eq_getElem _ _ (by omega)]

/-! ## Read and write paths -/

theorem cache_write_hit_sector_id (c : cache_state) (buffer : List Nat) (start length i j : Nat) :
    ((cache_write_hit c buffer start length i).buffer_cache j).sector_id =
      (c.buffer_cache j).sector_id := by
  unfold cache_write_hit set_entry
  dsimp only
  split
  · rename_i h
    rw [h]
  · rfl

theorem cache_read_hit_sector_id (c : cache_state) (start length i j : Nat) :
    ((cache_read_hit c start length i).2.buffer_cache j).sector_id =
      (c.buffer_cache j).sector_id := by
  unfold cache_read_hit set_entry
  dsimp only
  split
  · rename_i h
    rw [h]
  · rfl

theorem cache_write_partial_hit (fuel : Nat) (c : cache_state) (s : Nat) (buffer : List Nat)
    (start length i : Nat) (h : is_in_cache c s = some i) :
    cache_write_partial fuel c s buffer start length =
      some (cache_write_hit c buffer start length i) := by
  unfold cache_write_partial
  rw [h]

theorem cache_read_partial_hit (fuel : Nat) (c : cache_state) (s start length i : Nat)
    (h : is_in_cache c s = some i) :
    cache_read_partial fuel c s start length = some (cache_read_hit c start length i) := by
  unfold cache_read_partial
  rw [h]

/-- The write path on a miss: the slot `cache_get_entry` returns is patched and
marked accessed and dirty. -/
theorem cache_write_partial_miss (fuel : Nat) (c : cache_state) (s : Nat) (buffer : List Nat)
    (start length e : Nat) (c2 : cache_state) (hm : is_in_cache c s = none)
    (hg : cache_get_entry fuel c s = some (e, c2)) :
    cache_write_partial fuel c s buffer start length =
      some
        { c2 with
          buffer_cache :=
            set_entry c2.buffer_cache e
              { c2.buffer_cache e with
                data := memcpy_in (c2.buffer_cache e).data start buffer length
                accessed := true, dirty := true } } := by
  unfold cache_write_partial
  rw [hm]
  unfold cache_write_miss
  simp only [hg]

/-- The read path on a miss: the slot `cache_get_entry` returns is loaded from the
device and marked accessed. -/
theorem cache_read_partial_miss (fuel : Nat) (c : cache_state) (s start length e : Nat)
    (c2 : cache_state) (hm : is_in_cache c s = none)
    (hg : cache_get_entry fuel c s = some (e, c2)) :
    cache_read_partial fuel c s start length =
      some (memcpy_out (c2.fs_device.contents s) start length,
        { c2 with
          buffer_cache :=
            set_entry c2.buffer_cache e
              { c2.buffer_cache e with data := c2.fs_device.contents s, accessed := true }
          fs_device := (block_read c2.fs_device s).2 }) := by
  unfold cache_read_partial
  rw [hm]
  unfold cache_read_miss
  simp only [hg]
  rfl

/-- After a miss has been served by `cache_get_entry`, the slot it returned is
the one a lookup of the sector finds, whatever is then stored in the slot's
other fields. -/
theorem is_in_cache_after_miss (c c2 c3 : cache_state) (s e : Nat)
    (hm : is_in_cache c s = none) (he : e < BUFFER_CACHE_SIZE)
    (hfr : ∀ j, j ≠ e → c2.buffer_cache j = c.buffer_cache j ∨
      c2.buffer_cache j = clear_accessed (c.buffer_cache j))
    (h3e : (c3.buffer_cache e).sector_id = s)
    (h3 : ∀ j, j ≠ e → c3.buffer_cache j = c2.buffer_cache j) :
    is_in_cache c3 s = some e := by
  rw [is_in_cache_eq_none] at hm
  rw [is_in_cache_eq_some]
  refine ⟨he, h3e, fun j hj => ?_⟩
  have hje : j ≠ e := Nat.ne_of_lt hj
  rw [h3 j hje]
  rcases hfr j hje with h | h <;> rw [h]
  · exact hm j (Nat.lt_trans hj he)
  · exact hm j (Nat.lt_trans hj he)

/-! ## The effect of a read or a write -/

/-- What a returned `cache_read_partial` has done, on a hit and on a miss. -/
theorem cache_read_partial_effect (fuel : Nat) (c : cache_state) (s start length : Nat)
    (out : List Nat) (c3 : cache_state)
    (h : cache_read_partial fuel c s start length = some (out, c3)) :
    (∃ i, is_in_cache c s = some i ∧
        out = memcpy_out (c.buffer_cache i).data start length ∧
        c3.hand = c.hand ∧ c3.fs_device = c.fs_device ∧
        c3.buffer_cache i = { c.buffer_cache i with accessed := true } ∧
        ∀ j, j ≠ i → c3.buffer_cache j = c.buffer_cache j) ∨
    (is_in_cache c s = none ∧ ∃ e, (c.hand < BUFFER_CACHE_SIZE → e < BUFFER_CACHE_SIZE) ∧
        out = memcpy_out ((write_back c e).contents s) start length ∧
        c3.hand = next_hand e ∧ c3.fs_device = (block_read (write_back c e) s).2 ∧
        c3.buffer_cache e =
          { c.buffer_cache e with
            sector_id := s, dirty := false, accessed := true
            data := (write_back c e).contents s } ∧
        ∀ j, j ≠ e → c3.buffer_cache j = c.buffer_cache j ∨
          c3.buffer_cache j = clear_accessed (c.buffer_cache j)) := by
  cases hlook : is_in_cache c s with
  | some i =>
    left
    rw [cache_read_partial_hit fuel c s start length i hlook] at h
    simp only [Option.some.injEq] at h
    have h1 : out = (cache_read_hit c start length i).1 := by rw [h]
    have h2 : c3 = (cache_read_hit c start length i).2 := by rw [h]
    refine ⟨i, rfl, h1, ?_, ?_, ?_, ?_⟩
    · rw [h2]; rfl
    · rw [h2]; rfl
    · rw [h2]
      unfold cache_read_hit set_entry
      dsimp only
      rw [if_pos rfl]
    · intro j hj
      rw [h2]
      unfold cache_read_hit set_entry
      dsimp only
      rw [if_neg hj]
  | none =>
    right
    refine ⟨rfl, ?_⟩
    cases hg : cache_get_entry fuel c s with
    | none =>
      unfold cache_read_partial at h
      rw [hlook] at h
      unfold cache_read_miss at h
      simp [hg] at h
    | some x =>
      obtain ⟨e, c2⟩ := x
      rw [cache_read_partial_miss fuel c s start length e c2 hlook hg] at h
      simp only [Option.some.injEq, Prod.mk.injEq] at h
      obtain ⟨h1, h2⟩ := h
      obtain ⟨_, f2, f3, f4, f5, f6⟩ := cache_get_entry_miss_frame fuel c s e c2 hlook hg
      refine ⟨e, f2, ?_, ?_, ?_, ?_, ?_⟩
      · rw [← h1, f6]
      · rw [← h2]
        exact f3
      · rw [← h2, ← f6]
      · rw [← h2]
        dsimp only
        unfold set_entry
        rw [if_pos rfl, f4, f6]
      · intro j hj
        rw [← h2]
        dsimp only
        unfold set_entry
        rw [if_neg hj]
        exact f5 j hj

/-- What a returned `cache_write_partial` has done, on a hit and on a miss. -/
theorem cache_write_partial_effect (fuel : Nat) (c : cache_state) (s : Nat) (buffer : List Nat)
    (start length : Nat) (c3 : cache_state)
    (h : cache_write_partial fuel c s buffer start length = some c3) :
    (∃ i, is_in_cache c s = some i ∧
        c3.hand = c.hand ∧ c3.fs_device = c.fs_device ∧
        c3.buffer_cache i =
          { c.buffer_cache i with
            data := memcpy_in (c.buffer_cache i).data start buffer length
            accessed := true, dirty := true } ∧
        ∀ j, j ≠ i → c3.buffer_cache j = c.buffer_cache j) ∨
    (is_in_cache c s = none ∧ ∃ e, (c.hand < BUFFER_CACHE_SIZE → e < BUFFER_CACHE_SIZE) ∧
        c3.hand = next_hand e ∧ c3.fs_device = write_back c e ∧
        c3.buffer_cache e =
          { c.buffer_cache e with
            sector_id := s, dirty := true, accessed := true
            data := memcpy_in (c.buffer_cache e).data start buffer length } ∧
        ∀ j, j ≠ e → c3.buffer_cache j = c.buffer_cache j ∨
          c3.buffer_cache j = clear_accessed (c.buffer_cache j)) := by
  cases hlook : is_in_cache c s with
  | some i =>
    left
    rw [cache_write_partial_hit fuel c s buffer start length i hlook] at h
    simp only [Option.some.injEq] at h
    refine ⟨i, rfl, ?_, ?_, ?_, ?_⟩
    · rw [← h]; rfl
    · rw [← h]; rfl
    · rw [← h]
      unfold cache_write_hit set_entry
      dsimp only
      rw [if_pos rfl]
    · intro j hj
      rw [← h]
      unfold cache_write_hit set_entry
      dsimp only
      rw [if_neg hj]
  | none =>
    right
    refine ⟨rfl, ?_⟩
    cases hg : cache_get_entry fuel c s with
    | none =>
      unfold cache_write_partial at h
      rw [hlook] at h
      unfold cache_write_miss at h
      simp [hg] at h
    | some x =>
      obtain ⟨e, c2⟩ := x
      rw [cache_write_partial_miss fuel c s buffer start length e c2 hlook hg] at h
      simp only [Option.some.injEq] at h
      obtain ⟨_, f2, f3, f4, f5, f6⟩ := cache_get_entry_miss_frame fuel c s e c2 hlook hg
      refine ⟨e, f2, ?_, ?_, ?_, ?_⟩
      · rw [← h]
        exact f3
      · rw [← h]
        exact f6
      · rw [← h]
        dsimp only
        unfold set_entry
        rw [if_pos rfl, f4]
      · intro j hj
        rw [← h]
        dsimp only
        unfold set_entry
        rw [if_neg hj]
        exact f5 j hj

/-- With the cursor in range and a budget of 65, `cache_read_partial` returns. -/
theorem cache_read_partial_total (fuel : Nat) (c : cache_state) (s start length : Nat)
    (hh : c.hand < BUFFER_CACHE_SIZE) (hf : BUFFER_CACHE_SIZE + 1 ≤ fuel) :
    ∃ out c3, cache_read_partial fuel c s start length = some (out, c3) := by
  cases hlook : is_in_cache c s with
  | some i => exact ⟨_, _, cache_read_partial_hit fuel c s start length i hlook⟩
  | none =>
    obtain ⟨e, _, c2, _, hg, _⟩ := cache_get_entry_miss fuel c s hh hf hlook
    exact ⟨_, _, cache_read_partial_miss fuel c s start length e c2 hlook hg⟩

/-- With the cursor in range and a budget of 65, `cache_write_partial` returns. -/
theorem cache_write_partial_total (fuel : Nat) (c : cache_state) (s : Nat) (buffer : List Nat)
    (start length : Nat) (hh : c.hand < BUFFER_CACHE_SIZE) (hf : BUFFER_CACHE_SIZE + 1 ≤ fuel) :
    ∃ c3, cache_write_partial fuel c s buffer start length = some c3 := by
  cases hlook : is_in_cache c s with
  | some i => exact ⟨_, cache_write_partial_hit fuel c s buffer start length i hlook⟩
  | none =>
    obtain ⟨e, _, c2, _, hg, _⟩ := cache_get_entry_miss fuel c s hh hf hlook
    exact ⟨_, cache_write_partial_miss fuel c s buffer start length e c2 hlook hg⟩

/-- After a read that returned, the sector is a lookup hit on an accessed slot. -/
theorem cache_read_partial_resident (fuel : Nat) (c : cache_state) (s start length : Nat)
    (out : List Nat) (c3 : cache_state) (hh : c.hand < BUFFER_CACHE_SIZE)
    (h : cache_read_partial fuel c s start length = some (out, c3)) :
    ∃ i, is_in_cache c3 s = some i ∧ (c3.buffer_cache i).accessed = true ∧
      (is_in_cache c s = none → (c3.buffer_cache i).dirty = false) := by
  rcases cache_read_partial_effect fuel c s start length out c3 h with
    ⟨i, hl, _, _, _, h1, h2⟩ | ⟨hm, e, he, _, _, _, h1, h2⟩
  · refine ⟨i, ?_, by rw [h1], fun hn => by rw [hl] at hn; cases hn⟩
    rw [← hl]
    apply is_in_cache_congr
    intro j _
    by_cases hj : j = i
    · subst hj; rw [h1]
    · rw [h2 j hj]
  · refine ⟨e, ?_, by rw [h1], fun _ => by rw [h1]⟩
    exact is_in_cache_after_miss c c3 c3 s e hm (he hh) h2 (by rw [h1]) (fun _ _ => rfl)

/-- After a write that returned, the sector is a lookup hit on an accessed, dirty
slot. -/
theorem cache_write_partial_resident (fuel : Nat) (c : cache_state) (s : Nat)
    (buffer : List Nat) (start length : Nat) (c3 : cache_state) (hh : c.hand < BUFFER_CACHE_SIZE)
    (h : cache_write_partial fuel c s buffer start length = some c3) :
    ∃ i, is_in_cache c3 s = some i ∧ (c3.buffer_cache i).accessed = true ∧
      (c3.buffer_cache i).dirty = true := by
  rcases cache_write_partial_effect fuel c s buffer start length c3 h with
    ⟨i, hl, _, _, h1, h2⟩ | ⟨hm, e, he, _, _, h1, h2⟩
  · refine ⟨i, ?_, by rw [h1], by rw [h1]⟩
    rw [← hl]
    apply is_in_cache_congr
    intro j _
    by_cases hj : j = i
    · subst hj; rw [h1]
    · rw [h2 j hj]
  · refine ⟨e, ?_, by rw [h1], by rw [h1]⟩
    exact is_in_cache_after_miss c c3 c3 s e hm (he hh) h2 (by rw [h1]) (fun _ _ => rfl)

/-! ## Sequences of calls -/

/-- Every API call is a `cache_read_partial` or a `cache_write_partial`. -/
theorem do_call_cases (fuel : Nat) (c : cache_state) (call : cache_call) (o : List (List Nat))
    (c1 : cache_state) (h : do_call fuel c call = some (o, c1)) :
    (∃ s start length out,
      cache_read_partial fuel c s start length = some (out, c1) ∧ o = [out]) ∨
    (∃ s buffer start length,
      cache_write_partial fuel c s buffer start length = some c1 ∧ o = []) := by
  cases call with
  | rd s =>
    left
    unfold do_call cache_read at h
    cases hr : cache_read_partial fuel c s 0 BLOCK_SECTOR_SIZE with
    | none => simp [hr] at h
    | some x =>
      simp only [hr, Option.map_some', Option.some.injEq, Prod.mk.injEq] at h
      exact ⟨s, 0, BLOCK_SECTOR_SIZE, x.1, by rw [← h.2]; exact hr, h.1.symm⟩
  | rd_part s start length =>
    left
    unfold do_call at h
    cases hr : cache_read_partial fuel c s start length with
    | none => simp [hr] at h
    | some x =>
      simp only [hr, Option.map_some', Option.some.injEq, Prod.mk.injEq] at h
      exact ⟨s, start, length, x.1, by rw [← h.2]; exact hr, h.1.symm⟩
  | wr s buffer =>
    right
    unfold do_call cache_write at h
    cases hr : cache_write_partial fuel c s buffer 0 BLOCK_SECTOR_SIZE with
    | none => simp [hr] at h
    | some x =>
      simp only [hr, Option.map_some', Option.some.injEq, Prod.mk.injEq] at h
      exact ⟨s, buffer, 0, BLOCK_SECTOR_SIZE, by rw [← h.2]; exact hr, h.1.symm⟩
  | wr_part s buffer start length =>
    right
    unfold do_call at h
    cases hr : cache_write_partial fuel c s buffer start length with
    | none => simp [hr] at h
    | some x =>
      simp only [hr, Option.map_some', Option.some.injEq, Prod.mk.injEq] at h
      exact ⟨s, buffer, start, length, by rw [← h.2]; exact hr, h.1.symm⟩

/-- With the cursor in range and a budget of 65, every API call returns. -/
theorem do_call_total (fuel : Nat) (c : cache_state) (call : cache_call)
    (hh : c.hand < BUFFER_CACHE_SIZE) (hf : BUFFER_CACHE_SIZE + 1 ≤ fuel) :
    ∃ o c1, do_call fuel c call = some (o, c1) := by
  cases call with
  | rd s =>
    obtain ⟨out, c3, h⟩ := cache_read_partial_total fuel c s 0 BLOCK_SECTOR_SIZE hh hf
    exact ⟨[out], c3, by simp only [do_call, cache_read, h, Option.map_some']⟩
  | rd_part s start length =>
    obtain ⟨out, c3, h⟩ := cache_read_partial_total fuel c s start length hh hf
    exact ⟨[out], c3, by simp only [do_call, h, Option.map_some']⟩
  | wr s buffer =>
    obtain ⟨c3, h⟩ := cache_write_partial_total fuel c s buffer 0 BLOCK_SECTOR_SIZE hh hf
    exact ⟨[], c3, by simp only [do_call, cache_write, h, Option.map_some']⟩
  | wr_part s buffer start length =>
    obtain ⟨c3, h⟩ := cache_write_partial_total fuel c s buffer start length hh hf
    exact ⟨[], c3, by simp only [do_call, h, Option.map_some']⟩

/-- A call that returns keeps the cursor in range. -/
theorem do_call_hand (fuel : Nat) (c : cache_state) (call : cache_call) (o : List (List Nat))
    (c1 : cache_state) (h : do_call fuel c call = some (o, c1))
    (hh : c.hand < BUFFER_CACHE_SIZE) : c1.hand < BUFFER_CACHE_SIZE := by
  rcases do_call_cases fuel c call o c1 h with ⟨s, start, length, out, hr, _⟩ | ⟨s, b, start, length, hw, _⟩
  · rcases cache_read_partial_effect fuel c s start length out c1 hr with
      ⟨i, _, _, h1, _⟩ | ⟨_, e, _, _, h1, _⟩
    · rw [h1]; exact hh
    · rw [h1]; exact next_hand_lt e
  · rcases cache_write_partial_effect fuel c s b start length c1 hw with
      ⟨i, _, h1, _⟩ | ⟨_, e, _, h1, _⟩
    · rw [h1]; exact hh
    · rw [h1]; exact next_hand_lt e

/-- No API call changes a reader or writer counter of any slot. -/
theorem do_call_counters (fuel : Nat) (c : cache_state) (call : cache_call) (o : List (List Nat))
    (c1 : cache_state) (h : do_call fuel c call = some (o, c1)) (j : Nat) :
    (c1.buffer_cache j).AR = (c.buffer_cache j).AR ∧
      (c1.buffer_cache j).AW = (c.buffer_cache j).AW ∧
      (c1.buffer_cache j).WR = (c.buffer_cache j).WR ∧
      (c1.buffer_cache j).WW = (c.buffer_cache j).WW := by
  rcases do_call_cases fuel c call o c1 h with ⟨s, start, length, out, hr, _⟩ | ⟨s, b, start, length, hw, _⟩
  · rcases cache_read_partial_effect fuel c s start length out c1 hr with
      ⟨i, _, _, _, _, h1, h2⟩ | ⟨_, e, _, _, _, _, h1, h2⟩
    · by_cases hj : j = i
      · subst hj; rw [h1]; exact ⟨rfl, rfl, rfl, rfl⟩
      · rw [h2 j hj]; exact ⟨rfl, rfl, rfl, rfl⟩
    · by_cases hj : j = e
      · subst hj; rw [h1]; exact ⟨rfl, rfl, rfl, rfl⟩
      · rcases h2 j hj with h3 | h3 <;> rw [h3] <;> exact ⟨rfl, rfl, rfl, rfl⟩
  · rcases cache_write_partial_effect fuel c s b start length c1 hw with
      ⟨i, _, _, _, h1, h2⟩ | ⟨_, e, _, _, _, h1, h2⟩
    · by_cases hj : j = i
      · subst hj; rw [h1]; exact ⟨rfl, rfl, rfl, rfl⟩
      · rw [h2 j hj]; exact ⟨rfl, rfl, rfl, rfl⟩
    · by_cases hj : j = e
      · subst hj; rw [h1]; exact ⟨rfl, rfl, rfl, rfl⟩
      · rcases h2 j hj with h3 | h3 <;> rw [h3] <;> exact ⟨rfl, rfl, rfl, rfl⟩

/-- A property that holds at the start and is kept by every returning call holds
after a sequence of calls; with the cursor in range throughout and a budget of
65, the sequence returns. -/
theorem run_invariant (fuel : Nat) (P : cache_state → Prop)
    (hf : BUFFER_CACHE_SIZE + 1 ≤ fuel)
    (hP : ∀ c, P c → c.hand < BUFFER_CACHE_SIZE)
    (hstep : ∀ c call o c1, P c → do_call fuel c call = some (o, c1) → P c1) :
    ∀ (calls : List cache_call) (c : cache_state), P c →
      ∃ outs c1, run fuel c calls = some (outs, c1) ∧ P c1 := by
  intro calls
  induction calls with
  | nil =>
    intro c hc
    exact ⟨[], c, rfl, hc⟩
  | cons call rest ih =>
    intro c hc
    obtain ⟨o, c1, h1⟩ := do_call_total fuel c call (hP c hc) hf
    obtain ⟨os, c2, h2, hc2⟩ := ih c1 (hstep c call o c1 hc h1)
    refine ⟨o ++ os, c2, ?_, hc2⟩
    unfold run
    simp only [h1, h2]

/-- The read path on a miss, in terms of the state `c1` the sweep leaves. -/
theorem cache_read_partial_miss_exact (fuel : Nat) (c : cache_state) (s start length e : Nat)
    (c1 : cache_state) (hm : is_in_cache c s = none)
    (hev : cache_evict_id fuel c = some (e, c1)) :
    ∃ out c3, cache_read_partial fuel c s start length = some (out, c3) ∧
      c3.hand = c1.hand ∧ c3.fs_device = (block_read (write_back c1 e) s).2 ∧
      c3.buffer_cache e =
        { c1.buffer_cache e with
          sector_id := s, dirty := false, accessed := true
          data := (write_back c1 e).contents s } ∧
      ∀ j, j ≠ e → c3.buffer_cache j = c1.buffer_cache j := by
  have hg : cache_get_entry fuel c s = some (e,
      { c1 with
        buffer_cache :=
          set_entry c1.buffer_cache e
            { c1.buffer_cache e with dirty := false, accessed := false, sector_id := s }
        fs_device := write_back c1 e }) := by
    unfold cache_get_entry
    rw [hm]
    simp only [hev]
    rfl
  refine ⟨_, _, cache_read_partial_miss fuel c s start length e _ hm hg, rfl, rfl, ?_, ?_⟩
  · simp only [set_entry, if_true]
  · intro j hj
    simp only [set_entry, if_neg hj]

theorem run_append (fuel : Nat) (xs ys : List cache_call) :
    ∀ (c c1 c2 : cache_state) (o1 o2 : List (List Nat)), run fuel c xs = some (o1, c1) →
      run fuel c1 ys = some (o2, c2) → run fuel c (xs ++ ys) = some (o1 ++ o2, c2) := by
  induction xs with
  | nil =>
    intro c c1 c2 o1 o2 h1 h2
    simp only [run, Option.some.injEq, Prod.mk.injEq] at h1
    obtain ⟨rfl, rfl⟩ := h1
    simpa using h2
  | cons x xs ih =>
    intro c c1 c2 o1 o2 h1 h2
    rw [List.cons_append]
    unfold run at h1 ⊢
    cases hd : do_call fuel c x with
    | none => simp [hd] at h1
    | some r =>
      obtain ⟨o, c0⟩ := r
      simp only [hd] at h1 ⊢
      cases hr : run fuel c0 xs with
      | none => simp [hr] at h1
      | some r1 =>
        obtain ⟨os, c3⟩ := r1
        simp only [hr, Option.some.injEq, Prod.mk.injEq] at h1
        obtain ⟨rfl, rfl⟩ := h1
        rw [ih c0 c3 c2 os o2 hr h2, List.append_assoc]

theorem run_single (fuel : Nat) (c c1 : cache_state) (call : cache_call) (o : List (List Nat))
    (h : do_call fuel c call = some (o, c1)) : run fuel c [call] = some (o, c1) := by
  unfold run
  simp only [h, run, List.append_nil]

/-! ## Filling a cold cache -/

theorem filled_init (dev : block_device) : filled 0 dev (cache_init dev) := by
  refine ⟨rfl, fun i hi => absurd hi (Nat.not_lt_zero i), fun i _ => ⟨rfl, rfl, rfl⟩, rfl, ?_⟩
  simp [cache_init]

theorem filled_miss (k : Nat) (dev : block_device) (c : cache_state) (h : filled k dev c)
    (s : Nat) (hs1 : k ≤ s) (hs2 : s ≠ UINT32_MAX) : is_in_cache c s = none := by
  rw [is_in_cache_eq_none]
  intro i _ hi
  by_cases hik : i < k
  · rw [(h.2.1 i hik).1] at hi
    omega
  · rw [(h.2.2.1 i (by omega)).1] at hi
    exact hs2 hi.symm

/-- Reading sector `k` into a cold cache filled up to `k < 64` takes slot `k`. -/
theorem filled_step (k : Nat) (dev : block_device) (c : cache_state) (fuel : Nat)
    (h : filled k dev c) (hk : k < BUFFER_CACHE_SIZE) (hf : 1 ≤ fuel) :
    ∃ o c1, do_call fuel c (cache_call.rd k) = some (o, c1) ∧ filled (k + 1) dev c1 := by
  obtain ⟨n, rfl⟩ : ∃ n, fuel = n + 1 := ⟨fuel - 1, by omega⟩
  obtain ⟨h1, h2, h3, h4, h5⟩ := h
  have hhand : c.hand = k := by
    rw [h1]
    exact Nat.mod_eq_of_lt hk
  have hm : is_in_cache c k = none :=
    filled_miss k dev c ⟨h1, h2, h3, h4, h5⟩ k (Nat.le_refl k) (by
      unfold BUFFER_CACHE_SIZE UINT32_MAX at *
      omega)
  have hev : cache_evict_id (n + 1) c = some (k, { c with hand := next_hand c.hand }) := by
    rw [cache_evict_id_unaccessed n c (by rw [hhand]; exact (h3 k (Nat.le_refl k)).2.1), hhand]
  obtain ⟨out, c3, hr, g1, g2, g3, g4⟩ :=
    cache_read_partial_miss_exact (n + 1) c k 0 BLOCK_SECTOR_SIZE k _ hm hev
  have hwb : write_back { c with hand := next_hand c.hand } k = c.fs_device := by
    unfold write_back
    dsimp only
    rw [if_neg]
    rw [(h3 k (Nat.le_refl k)).2.2]
    exact Bool.false_ne_true
  rw [hwb] at g2 g3
  refine ⟨[out], c3, by simp only [do_call, cache_read, hr, Option.map_some'], ?_, ?_, ?_, ?_, ?_⟩
  · rw [g1]
    dsimp only
    rw [hhand]
    unfold next_hand BUFFER_CACHE_SIZE at *
    omega
  · intro i hi
    by_cases hik : i = k
    · subst hik
      rw [g3]
      exact ⟨rfl, rfl, rfl⟩
    · rw [g4 i hik]
      exact h2 i (by omega)
  · intro i hi
    rw [g4 i (by omega)]
    exact h3 i (by omega)
  · rw [g2]
    exact h4
  · rw [g2]
    unfold block_read
    dsimp only
    rw [h5, List.range_succ, List.map_append, List.append_assoc]
    rfl

/-- Reading sectors `0 .. k - 1` in order into a cold cache, for `k ≤ 64`. -/
theorem filled_run (dev : block_device) (fuel : Nat) (hf : 1 ≤ fuel) (k : Nat)
    (hk : k ≤ BUFFER_CACHE_SIZE) :
    ∃ outs c, run fuel (cache_init dev) ((List.range k).map cache_call.rd) = some (outs, c) ∧
      filled k dev c := by
  induction k with
  | zero => exact ⟨[], cache_init dev, rfl, filled_init dev⟩
  | succ k ih =>
    obtain ⟨outs, c, hrun, hfill⟩ := ih (by omega)
    obtain ⟨o, c1, hd, hfill1⟩ := filled_step k dev c fuel hfill (by omega) hf
    refine ⟨outs ++ o, c1, ?_, hfill1⟩
    rw [List.range_succ, List.map_append]
    exact run_append fuel _ _ _ c c1 outs o hrun (run_single fuel c c1 _ o hd)

/-! ## The cache simulates the device -/

theorem memcpy_out_congr (f g : Nat → Nat) (start length : Nat)
    (h : ∀ j, j < start + length → f j = g j) :
    memcpy_out f start length = memcpy_out g start length := by
  unfold memcpy_out
  apply List.map_congr_left
  intro i hi
  rw [List.mem_range] at hi
  exact h _ (by omega)

theorem write_back_contents (c : cache_state) (e t : Nat) :
    (write_back c e).contents t =
      if (c.buffer_cache e).dirty = true ∧ t = (c.buffer_cache e).sector_id
      then (c.buffer_cache e).data else c.fs_device.contents t := by
  unfold write_back
  by_cases hd : (c.buffer_cache e).dirty = true
  · rw [if_pos hd]
    unfold block_write
    dsimp only
    by_cases ht : t = (c.buffer_cache e).sector_id
    · rw [if_pos ht, if_pos ⟨hd, ht⟩]
    · rw [if_neg ht, if_neg (fun h => ht h.2)]
  · rw [if_neg hd, if_neg (fun h => hd h.1)]

theorem frame_fields (x y : cache_entry) (h : x = y ∨ x = clear_accessed y) :
    x.sector_id = y.sector_id ∧ x.dirty = y.dirty ∧ x.data = y.data := by
  rcases h with h | h <;> rw [h] <;> exact ⟨rfl, rfl, rfl⟩

theorem cache_sim_init (dev : block_device) : cache_sim (cache_init dev) dev.contents :=
  ⟨Nat.zero_lt_succ 63, fun _ _ _ _ _ h => absurd rfl h, fun _ _ h => absurd rfl h,
    fun _ _ _ _ _ => rfl⟩

/-- In a state that simulates `dev`, what the device holds for a missing sector
after the write-back of any victim is the reference content. -/
theorem cache_sim_miss_contents (c : cache_state) (dev : Nat → Nat → Nat) (s e : Nat)
    (hsim : cache_sim c dev) (hs : s ≠ UINT32_MAX) (hm : is_in_cache c s = none)
    (he : e < BUFFER_CACHE_SIZE) (j : Nat) (hj : j < BLOCK_SECTOR_SIZE) :
    (write_back c e).contents s j = dev s j := by
  rw [is_in_cache_eq_none] at hm
  rw [write_back_contents, if_neg (fun h => hm e he h.2.symm)]
  exact hsim.2.2.2 s hs (fun i hi h => absurd h (hm i hi)) j hj

/-- The simulation survives the installation of a missing sector in slot `e`. -/
theorem cache_sim_install (c c1 : cache_state) (dev dev1 : Nat → Nat → Nat) (s e : Nat)
    (hsim : cache_sim c dev) (_hs : s ≠ UINT32_MAX) (hm : is_in_cache c s = none)
    (he : e < BUFFER_CACHE_SIZE) (hhand : c1.hand < BUFFER_CACHE_SIZE)
    (hdev : c1.fs_device.contents = (write_back c e).contents)
    (hsid : (c1.buffer_cache e).sector_id = s)
    (hdata : ∀ j, j < BLOCK_SECTOR_SIZE → (c1.buffer_cache e).data j = dev1 s j)
    (hclean : (c1.buffer_cache e).dirty = false →
      ∀ j, j < BLOCK_SECTOR_SIZE → (write_back c e).contents s j = dev1 s j)
    (hfr : ∀ k, k ≠ e → c1.buffer_cache k = c.buffer_cache k ∨
      c1.buffer_cache k = clear_accessed (c.buffer_cache k))
    (href : ∀ t, t ≠ s → dev1 t = dev t) :
    cache_sim c1 dev1 := by
  obtain ⟨_, huniq, hres, hcont⟩ := hsim
  rw [is_in_cache_eq_none] at hm
  have hk : ∀ k, k ≠ e → (c1.buffer_cache k).sector_id = (c.buffer_cache k).sector_id ∧
      (c1.buffer_cache k).dirty = (c.buffer_cache k).dirty ∧
      (c1.buffer_cache k).data = (c.buffer_cache k).data :=
    fun k hke => frame_fields _ _ (hfr k hke)
  refine ⟨hhand, ?_, ?_, ?_⟩
  · intro i k hi hkk heq hne
    by_cases hie : i = e
    · by_cases hke : k = e
      · rw [hie, hke]
      · exfalso
        rw [hie, hsid, (hk k hke).1] at heq
        exact hm k hkk heq.symm
    · by_cases hke : k = e
      · exfalso
        rw [hke, hsid, (hk i hie).1] at heq
        exact hm i hi heq
      · rw [(hk i hie).1, (hk k hke).1] at heq
        rw [(hk i hie).1] at hne
        exact huniq i k hi hkk heq hne
  · intro i hi hne j hj
    by_cases hie : i = e
    · rw [hie, hsid]
      exact hdata j hj
    · rw [(hk i hie).1] at hne ⊢
      rw [(hk i hie).2.2, href _ (fun h => hm i hi h)]
      exact hres i hi hne j hj
  · intro t ht hyp j hj
    rw [hdev]
    by_cases hts : t = s
    · rw [hts]
      exact hclean (hyp e he (by rw [hsid, hts])) j hj
    · rw [href t hts, write_back_contents]
      by_cases hcase : (c.buffer_cache e).dirty = true ∧ t = (c.buffer_cache e).sector_id
      · rw [if_pos hcase, hcase.2]
        exact hres e he (by rw [← hcase.2]; exact ht) j hj
      · rw [if_neg hcase]
        refine hcont t ht (fun i hi hit => ?_) j hj
        by_cases hie : i = e
        · rw [hie] at hit ⊢
          cases hd : (c.buffer_cache e).dirty with
          | false => rfl
          | true => exact absurd ⟨hd, hit.symm⟩ hcase
        · rw [← (hk i hie).2.1]
          exact hyp i hi (by rw [(hk i hie).1]; exact hit)

/-- The simulation survives an update of the slot that holds a resident sector. -/
theorem cache_sim_hit (c c1 : cache_state) (dev dev1 : Nat → Nat → Nat) (s i : Nat)
    (hsim : cache_sim c dev) (hs : s ≠ UINT32_MAX) (hl : is_in_cache c s = some i)
    (hhand : c1.hand = c.hand) (hdev : c1.fs_device = c.fs_device)
    (hsid : (c1.buffer_cache i).sector_id = s)
    (hdata : ∀ j, j < BLOCK_SECTOR_SIZE → (c1.buffer_cache i).data j = dev1 s j)
    (hclean : (c1.buffer_cache i).dirty = false →
      (c.buffer_cache i).dirty = false ∧ ∀ j, j < BLOCK_SECTOR_SIZE → dev1 s j = dev s j)
    (hfr : ∀ k, k ≠ i → c1.buffer_cache k = c.buffer_cache k)
    (href : ∀ t, t ≠ s → dev1 t = dev t) :
    cache_sim c1 dev1 := by
  obtain ⟨hh, huniq, hres, hcont⟩ := hsim
  rw [is_in_cache_eq_some] at hl
  obtain ⟨hi, hsi, _⟩ := hl
  have hsame : ∀ k, (c1.buffer_cache k).sector_id = (c.buffer_cache k).sector_id := by
    intro k
    by_cases hki : k = i
    · rw [hki, hsid, hsi]
    · rw [hfr k hki]
  refine ⟨by rw [hhand]; exact hh, ?_, ?_, ?_⟩
  · intro a b ha hb heq hne
    rw [hsame a, hsame b] at heq
    rw [hsame a] at hne
    exact huniq a b ha hb heq hne
  · intro k hk hne j hj
    by_cases hki : k = i
    · rw [hki, hsid]
      exact hdata j hj
    · have hks : (c.buffer_cache k).sector_id ≠ s := by
        intro h
        rw [← hsi] at h
        rw [hsame k] at hne
        exact hki (huniq k i hk hi h hne)
      rw [hfr k hki, href _ hks]
      rw [hfr k hki] at hne
      exact hres k hk hne j hj
  · intro t ht hyp j hj
    rw [hdev]
    by_cases hts : t = s
    · rw [hts]
      obtain ⟨hd, hsame1⟩ := hclean (hyp i hi (by rw [hsid, hts]))
      rw [hsame1 j hj]
      refine hcont s hs (fun k hk hks => ?_) j hj
      have hki : k = i := huniq k i hk hi (by rw [hks, hsi]) (by rw [hks]; exact hs)
      rw [hki]
      exact hd
    · rw [href t hts]
      refine hcont t ht (fun k hk hkt => ?_) j hj
      have hki : k ≠ i := by
        intro h
        rw [h, hsi] at hkt
        exact hts hkt.symm
      rw [← hfr k hki]
      exact hyp k hk (by rw [hfr k hki]; exact hkt)

/-- An in-bounds read of a real sector returns the reference bytes and keeps the
simulation. -/
theorem cache_sim_read (fuel : Nat) (c : cache_state) (dev : Nat → Nat → Nat)
    (s start length : Nat) (out : List Nat) (c1 : cache_state) (hsim : cache_sim c dev)
    (hs : s ≠ UINT32_MAX) (hb : start + length ≤ BLOCK_SECTOR_SIZE)
    (h : cache_read_partial fuel c s start length = some (out, c1)) :
    out = memcpy_out (dev s) start length ∧ cache_sim c1 dev := by
  rcases cache_read_partial_effect fuel c s start length out c1 h with
    ⟨i, hl, ho, h1, h2, h3, h4⟩ | ⟨hm, e, he, ho, h1, h2, h3, h4⟩
  · obtain ⟨hi, hsi, _⟩ := is_in_cache_eq_some.mp hl
    have hdata : ∀ j, j < BLOCK_SECTOR_SIZE → (c.buffer_cache i).data j = dev s j := by
      intro j hj
      have := hsim.2.2.1 i hi (by rw [hsi]; exact hs) j hj
      rwa [hsi] at this
    refine ⟨?_, ?_⟩
    · rw [ho]
      exact memcpy_out_congr _ _ _ _ (fun j hj => hdata j (by omega))
    · refine cache_sim_hit c c1 dev dev s i hsim hs hl h1 h2 (by rw [h3, ← hsi]) ?_ ?_ h4
        (fun _ _ => rfl)
      · intro j hj
        rw [h3]
        exact hdata j hj
      · intro hd
        rw [h3] at hd
        exact ⟨hd, fun _ _ => rfl⟩
  · have hee := he hsim.1
    have hcont := cache_sim_miss_contents c dev s e hsim hs hm hee
    refine ⟨?_, ?_⟩
    · rw [ho]
      exact memcpy_out_congr _ _ _ _ (fun j hj => hcont j (by omega))
    · refine cache_sim_install c c1 dev dev s e hsim hs hm hee (by rw [h1]; exact next_hand_lt e)
        (by rw [h2]; rfl) (by rw [h3]) ?_ (fun _ => hcont) h4 (fun _ _ => rfl)
      intro j hj
      rw [h3]
      exact hcont j hj

/-- A full-sector write of a real sector keeps the simulation, with the
reference device updated at that sector. -/
theorem cache_sim_write (fuel : Nat) (c : cache_state) (dev : Nat → Nat → Nat) (s : Nat)
    (buffer : List Nat) (c1 : cache_state) (hsim : cache_sim c dev) (hs : s ≠ UINT32_MAX)
    (h : cache_write_partial fuel c s buffer 0 BLOCK_SECTOR_SIZE = some c1) :
    cache_sim c1
      (fun t => if t = s then memcpy_in (dev s) 0 buffer BLOCK_SECTOR_SIZE else dev t) := by
  have hfull : ∀ (d1 d2 : Nat → Nat) (j : Nat), j < BLOCK_SECTOR_SIZE →
      memcpy_in d1 0 buffer BLOCK_SECTOR_SIZE j = memcpy_in d2 0 buffer BLOCK_SECTOR_SIZE j := by
    intro d1 d2 j hj
    rw [memcpy_in_inside _ _ _ _ _ (Nat.zero_le j) (by omega),
      memcpy_in_inside _ _ _ _ _ (Nat.zero_le j) (by omega)]
  rcases cache_write_partial_effect fuel c s buffer 0 BLOCK_SECTOR_SIZE c1 h with
    ⟨i, hl, h1, h2, h3, h4⟩ | ⟨hm, e, he, h1, h2, h3, h4⟩
  · obtain ⟨_, hsi, _⟩ := is_in_cache_eq_some.mp hl
    refine cache_sim_hit c c1 dev _ s i hsim hs hl h1 h2 (by rw [h3, ← hsi]) ?_ ?_ h4 ?_
    · intro j hj
      rw [h3]
      dsimp only
      rw [if_pos rfl]
      exact hfull _ _ j hj
    · intro hd
      rw [h3] at hd
      cases hd
    · intro t hts
      dsimp only
      rw [if_neg hts]
  · have hee := he hsim.1
    refine cache_sim_install c c1 dev _ s e hsim hs hm hee (by rw [h1]; exact next_hand_lt e)
      (by rw [h2]) (by rw [h3]) ?_ ?_ h4 ?_
    · intro j hj
      rw [h3]
      dsimp only
      rw [if_pos rfl]
      exact hfull _ _ j hj
    · intro hd
      rw [h3] at hd
      cases hd
    · intro t hts
      dsimp only
      rw [if_neg hts]

/-- One transparent call returns what the reference returns and keeps the
simulation. -/
theorem cache_sim_step (fuel : Nat) (c : cache_state) (dev : Nat → Nat → Nat) (call : cache_call)
    (o : List (List Nat)) (c1 : cache_state) (hsim : cache_sim c dev)
    (ht : transparent_call call) (h : do_call fuel c call = some (o, c1)) :
    o = (ref_call dev call).1 ∧ cache_sim c1 (ref_call dev call).2 := by
  cases call with
  | rd s =>
    unfold do_call cache_read at h
    cases hr : cache_read_partial fuel c s 0 BLOCK_SECTOR_SIZE with
    | none => simp [hr] at h
    | some x =>
      simp only [hr, Option.map_some', Option.some.injEq, Prod.mk.injEq] at h
      obtain ⟨h1, h2⟩ := cache_sim_read fuel c dev s 0 BLOCK_SECTOR_SIZE x.1 x.2 hsim ht
        (by omega) hr
      rw [← h.1, ← h.2, h1]
      exact ⟨rfl, h2⟩
  | rd_part s start length =>
    unfold do_call at h
    cases hr : cache_read_partial fuel c s start length with
    | none => simp [hr] at h
    | some x =>
      simp only [hr, Option.map_some', Option.some.injEq, Prod.mk.injEq] at h
      obtain ⟨h1, h2⟩ := cache_sim_read fuel c dev s start length x.1 x.2 hsim ht.1 ht.2 hr
      rw [← h.1, ← h.2, h1]
      exact ⟨rfl, h2⟩
  | wr s buffer =>
    unfold do_call cache_write at h
    cases hr : cache_write_partial fuel c s buffer 0 BLOCK_SECTOR_SIZE with
    | none => simp [hr] at h
    | some x =>
      simp only [hr, Option.map_some', Option.some.injEq, Prod.mk.injEq] at h
      rw [← h.1, ← h.2]
      exact ⟨rfl, cache_sim_write fuel c dev s buffer x hsim ht hr⟩
  | wr_part s buffer start length => exact absurd ht (fun h => h)

/-- A sequence of transparent calls returns what the reference returns. -/
theorem cache_sim_run (fuel : Nat) (hf : BUFFER_CACHE_SIZE + 1 ≤ fuel) (calls : List cache_call) :
    ∀ (c : cache_state) (dev : Nat → Nat → Nat), cache_sim c dev →
      (∀ call, call ∈ calls → transparent_call call) →
      ∃ c1, run fuel c calls = some ((ref_run dev calls).1, c1) ∧
        cache_sim c1 (ref_run dev calls).2 := by
  induction calls with
  | nil =>
    intro c dev hsim _
    exact ⟨c, rfl, hsim⟩
  | cons call rest ih =>
    intro c dev hsim ht
    obtain ⟨o, c1, h1⟩ := do_call_total fuel c call hsim.1 hf
    obtain ⟨ho, hsim1⟩ := cache_sim_step fuel c dev call o c1 hsim
      (ht call (List.mem_cons_self _ _)) h1
    obtain ⟨c2, h2, hsim2⟩ := ih c1 _ hsim1 (fun x hx => ht x (List.mem_cons_of_mem _ hx))
    refine ⟨c2, ?_, hsim2⟩
    unfold run ref_run
    simp only [h1, h2, ho]

/-! ## The sweep against its reference -/

theorem clock_first_eq_some (c : cache_state) (r : Nat) (h : clock_first c = some r) :
    ∃ n, n < BUFFER_CACHE_SIZE ∧ r = (c.hand + n) % BUFFER_CACHE_SIZE ∧
      (c.buffer_cache r).accessed = false ∧
      ∀ i, i < n → (c.buffer_cache ((c.hand + i) % BUFFER_CACHE_SIZE)).accessed = true := by
  unfold clock_first clock_order at h
  rw [List.find?_map] at h
  cases hn : List.find? ((fun j => !(c.buffer_cache j).accessed) ∘
      fun i => (c.hand + i) % BUFFER_CACHE_SIZE) (List.range BUFFER_CACHE_SIZE) with
  | none => simp [hn] at h
  | some n =>
    rw [hn] at h
    simp only [Option.map_some', Option.some.injEq] at h
    rw [List.find?_range_eq_some] at hn
    obtain ⟨h1, h2, h3⟩ := hn
    refine ⟨n, List.mem_range.mp h2, h.symm, ?_, fun i hi => ?_⟩
    · rw [← h]
      simpa using h1
    · simpa using h3 i hi

theorem clock_first_eq_none (c : cache_state) (hh : c.hand < BUFFER_CACHE_SIZE)
    (h : clock_first c = none) :
    ∀ j, j < BUFFER_CACHE_SIZE → (c.buffer_cache j).accessed = true := by
  unfold clock_first clock_order at h
  rw [List.find?_map] at h
  cases hn : List.find? ((fun j => !(c.buffer_cache j).accessed) ∘
      fun i => (c.hand + i) % BUFFER_CACHE_SIZE) (List.range BUFFER_CACHE_SIZE) with
  | some n => simp [hn] at h
  | none =>
    rw [List.find?_range_eq_none] at hn
    intro j hj
    have := hn ((j + BUFFER_CACHE_SIZE - c.hand) % BUFFER_CACHE_SIZE) (Nat.mod_lt _ (by decide))
    have e : (c.hand + (j + BUFFER_CACHE_SIZE - c.hand) % BUFFER_CACHE_SIZE) % BUFFER_CACHE_SIZE
        = j := by
      unfold BUFFER_CACHE_SIZE at *
      omega
    simpa [e] using this

/-! ## Invariants of call sequences -/

/-- A property kept by every returning call that satisfies `Q` holds after any
returning sequence of such calls, whatever the budget. -/
theorem run_preserves (fuel : Nat) (P : cache_state → Prop) (Q : cache_call → Prop)
    (hstep : ∀ c call o c1, P c → Q call → do_call fuel c call = some (o, c1) → P c1) :
    ∀ (calls : List cache_call) (c : cache_state) (outs : List (List Nat)) (c1 : cache_state),
      P c → (∀ call, call ∈ calls → Q call) → run fuel c calls = some (outs, c1) → P c1 := by
  intro calls
  induction calls with
  | nil =>
    intro c outs c1 hc _ h
    simp only [run, Option.some.injEq, Prod.mk.injEq] at h
    rw [← h.2]
    exact hc
  | cons call rest ih =>
    intro c outs c1 hc hq h
    unfold run at h
    cases hd : do_call fuel c call with
    | none => simp [hd] at h
    | some r =>
      obtain ⟨o, c0⟩ := r
      simp only [hd] at h
      cases hr : run fuel c0 rest with
      | none => simp [hr] at h
      | some r1 =>
        obtain ⟨os, c2⟩ := r1
        simp only [hr, Option.some.injEq, Prod.mk.injEq] at h
        rw [← h.2]
        exact ih c0 os c2 (hstep c call o c0 hc (hq call (List.mem_cons_self _ _)) hd)
          (fun x hx => hq x (List.mem_cons_of_mem _ hx)) hr

/-- With a budget of 65, a sequence of calls satisfying `Q` returns, and a
property kept by every such call (and implying the cursor is in range) holds at
the end. -/
theorem run_invariant_on (fuel : Nat) (P : cache_state → Prop) (Q : cache_call → Prop)
    (hf : BUFFER_CACHE_SIZE + 1 ≤ fuel)
    (hP : ∀ c, P c → c.hand < BUFFER_CACHE_SIZE)
    (hstep : ∀ c call o c1, P c → Q call → do_call fuel c call = some (o, c1) → P c1) :
    ∀ (calls : List cache_call) (c : cache_state), P c → (∀ call, call ∈ calls → Q call) →
      ∃ outs c1, run fuel c calls = some (outs, c1) ∧ P c1 := by
  intro calls
  induction calls with
  | nil =>
    intro c hc _
    exact ⟨[], c, rfl, hc⟩
  | cons call rest ih =>
    intro c hc hq
    obtain ⟨o, c1, h1⟩ := do_call_total fuel c call (hP c hc) hf
    obtain ⟨os, c2, h2, hc2⟩ :=
      ih c1 (hstep c call o c1 hc (hq call (List.mem_cons_self _ _)) h1)
        (fun x hx => hq x (List.mem_cons_of_mem _ hx))
    refine ⟨o ++ os, c2, ?_, hc2⟩
    unfold run
    simp only [h1, h2]

/-- Every API call is a `cache_read_partial` or a `cache_write_partial` of the
sector the call names. -/
theorem do_call_sector (fuel : Nat) (c : cache_state) (call : cache_call) (o : List (List Nat))
    (c1 : cache_state) (h : do_call fuel c call = some (o, c1)) :
    (call_is_read call = true ∧ ∃ start length out,
      cache_read_partial fuel c (call_sector call) start length = some (out, c1)) ∨
    (call_is_read call = false ∧ ∃ buffer start length,
      cache_write_partial fuel c (call_sector call) buffer start length = some c1) := by
  cases call with
  | rd s =>
    left
    unfold do_call cache_read at h
    cases hr : cache_read_partial fuel c s 0 BLOCK_SECTOR_SIZE with
    | none => simp [hr] at h
    | some x =>
      simp only [hr, Option.map_some', Option.some.injEq, Prod.mk.injEq] at h
      exact ⟨rfl, 0, BLOCK_SECTOR_SIZE, x.1, by rw [← h.2]; exact hr⟩
  | rd_part s start length =>
    left
    unfold do_call at h
    cases hr : cache_read_partial fuel c s start length with
    | none => simp [hr] at h
    | some x =>
      simp only [hr, Option.map_some', Option.some.injEq, Prod.mk.injEq] at h
      exact ⟨rfl, start, length, x.1, by rw [← h.2]; exact hr⟩
  | wr s buffer =>
    right
    unfold do_call cache_write at h
    cases hr : cache_write_partial fuel c s buffer 0 BLOCK_SECTOR_SIZE with
    | none => simp [hr] at h
    | some x =>
      simp only [hr, Option.map_some', Option.some.injEq, Prod.mk.injEq] at h
      exact ⟨rfl, buffer, 0, BLOCK_SECTOR_SIZE, by rw [← h.2]; exact hr⟩
  | wr_part s buffer start length =>
    right
    unfold do_call at h
    cases hr : cache_write_partial fuel c s buffer start length with
    | none => simp [hr] at h
    | some x =>
      simp only [hr, Option.map_some', Option.some.injEq, Prod.mk.injEq] at h
      exact ⟨rfl, buffer, start, length, by rw [← h.2]; exact hr⟩

theorem write_back_log (c : cache_state) (e : Nat) :
    (write_back c e).log = c.fs_device.log ++
      (if (c.buffer_cache e).dirty = true then
        [block_op.write (c.buffer_cache e).sector_id (sector_bytes (c.buffer_cache e).data)]
      else []) := by
  unfold write_back
  by_cases hd : (c.buffer_cache e).dirty = true
  · rw [if_pos hd, if_pos hd]
    rfl
  · rw [if_neg hd, if_neg hd, List.append_nil]

theorem write_back_clean (c : cache_state) (e : Nat) (h : (c.buffer_cache e).dirty = false) :
    write_back c e = c.fs_device := by
  unfold write_back
  rw [if_neg]
  rw [h]
  exact Bool.false_ne_true

/-- The reader and writer counters of every slot are zero after any sequence of
in-bounds calls from `cache_init`. -/
theorem run_counters_zero (dev : block_device) (calls : List cache_call) (fuel : Nat)
    (hf : BUFFER_CACHE_SIZE + 1 ≤ fuel)
    (hb : ∀ call, call ∈ calls → call_in_bounds call) :
    ∃ outs c, run fuel (cache_init dev) calls = some (outs, c) ∧ c.hand < BUFFER_CACHE_SIZE ∧
      ∀ j, (c.buffer_cache j).AR = 0 ∧ (c.buffer_cache j).AW = 0 :=
  run_invariant_on fuel
    (fun c => c.hand < BUFFER_CACHE_SIZE ∧
      ∀ j, (c.buffer_cache j).AR = 0 ∧ (c.buffer_cache j).AW = 0)
    call_in_bounds hf (fun _ h => h.1)
    (fun c call o c1 hc _ h => ⟨do_call_hand fuel c call o c1 h hc.1, fun j => by
      obtain ⟨h1, h2, _⟩ := do_call_counters fuel c call o c1 h j
      rw [h1, h2]
      exact hc.2 j⟩)
    calls (cache_init dev) ⟨Nat.zero_lt_succ 63, fun _ => ⟨rfl, rfl⟩⟩ hb

/-- The sector ids after a returning call: all unchanged (a hit), or the called
sector, which no slot named, now stands in one slot and the others are
unchanged (a miss). -/
theorem do_call_sector_ids (fuel : Nat) (c : cache_state) (call : cache_call)
    (o : List (List Nat)) (c1 : cache_state) (h : do_call fuel c call = some (o, c1))
    (hh : c.hand < BUFFER_CACHE_SIZE) :
    (∃ i, is_in_cache c (call_sector call) = some i ∧
      ∀ j, (c1.buffer_cache j).sector_id = (c.buffer_cache j).sector_id) ∨
    (∃ e, e < BUFFER_CACHE_SIZE ∧ is_in_cache c (call_sector call) = none ∧
      (c1.buffer_cache e).sector_id = call_sector call ∧
      ∀ j, j ≠ e → (c1.buffer_cache j).sector_id = (c.buffer_cache j).sector_id) := by
  rcases do_call_sector fuel c call o c1 h with
    ⟨_, start, length, out, hr⟩ | ⟨_, b, start, length, hw⟩
  · rcases cache_read_partial_effect fuel c _ start length out c1 hr with
      ⟨i, hl, _, _, _, h1, h2⟩ | ⟨hm, e, he, _, _, _, h1, h2⟩
    · left
      refine ⟨i, hl, fun j => ?_⟩
      by_cases hj : j = i
      · rw [hj, h1]
      · rw [h2 j hj]
    · right
      exact ⟨e, he hh, hm, by rw [h1], fun j hj => (frame_fields _ _ (h2 j hj)).1⟩
  · rcases cache_write_partial_effect fuel c _ b start length c1 hw with
      ⟨i, hl, _, _, h1, h2⟩ | ⟨hm, e, he, _, _, h1, h2⟩
    · left
      refine ⟨i, hl, fun j => ?_⟩
      by_cases hj : j = i
      · rw [hj, h1]
      · rw [h2 j hj]
    · right
      exact ⟨e, he hh, hm, by rw [h1], fun j hj => (frame_fields _ _ (h2 j hj)).1⟩

/-- Every returning call keeps the cursor in range and the real sector ids of
the table pairwise distinct. -/
theorem unique_step (fuel : Nat) (c : cache_state) (call : cache_call) (o : List (List Nat))
    (c1 : cache_state)
    (hc : c.hand < BUFFER_CACHE_SIZE ∧
      ∀ i k, i < BUFFER_CACHE_SIZE → k < BUFFER_CACHE_SIZE →
        (c.buffer_cache i).sector_id = (c.buffer_cache k).sector_id →
        (c.buffer_cache i).sector_id ≠ UINT32_MAX → i = k)
    (h : do_call fuel c call = some (o, c1)) :
    c1.hand < BUFFER_CACHE_SIZE ∧
      ∀ i k, i < BUFFER_CACHE_SIZE → k < BUFFER_CACHE_SIZE →
        (c1.buffer_cache i).sector_id = (c1.buffer_cache k).sector_id →
        (c1.buffer_cache i).sector_id ≠ UINT32_MAX → i = k := by
  refine ⟨do_call_hand fuel c call o c1 h hc.1, fun i k hi hk heq hne => ?_⟩
  rcases do_call_sector_ids fuel c call o c1 h hc.1 with ⟨_, _, hs⟩ | ⟨e, _, hm, hse, hs⟩
  · rw [hs i, hs k] at heq
    rw [hs i] at hne
    exact hc.2 i k hi hk heq hne
  · rw [is_in_cache_eq_none] at hm
    by_cases hie : i = e
    · by_cases hke : k = e
      · rw [hie, hke]
      · exfalso
        rw [hie, hse, hs k hke] at heq
        exact hm k hk heq.symm
    · by_cases hke : k = e
      · exfalso
        rw [hke, hse, hs i hie] at heq
        exact hm i hi heq
      · rw [hs i hie, hs k hke] at heq
        rw [hs i hie] at hne
        exact hc.2 i k hi hk heq hne

/-- A returning call on a real sector keeps `dirty_inv`. -/
theorem dirty_inv_step (fuel : Nat) (dev : block_device) (c : cache_state) (call : cache_call)
    (o : List (List Nat)) (c1 : cache_state) (hc : dirty_inv dev c)
    (hs : call_sector call ≠ UINT32_MAX) (h : do_call fuel c call = some (o, c1)) :
    dirty_inv dev c1 := by
  obtain ⟨hh, hd, extra, hlog, hw⟩ := hc
  have hwb : ∀ e, ∃ extra1, (write_back c e).log = dev.log ++ extra1 ∧
      ∀ t b, block_op.write t b ∈ extra1 → t ≠ UINT32_MAX := by
    intro e
    refine ⟨extra ++ (if (c.buffer_cache e).dirty = true then
      [block_op.write (c.buffer_cache e).sector_id (sector_bytes (c.buffer_cache e).data)]
      else []), by rw [write_back_log, hlog, List.append_assoc], fun t b hmem => ?_⟩
    rcases List.mem_append.mp hmem with h1 | h1
    · exact hw t b h1
    · by_cases hde : (c.buffer_cache e).dirty = true
      · rw [if_pos hde] at h1
        simp only [List.mem_singleton, block_op.write.injEq] at h1
        rw [h1.1]
        exact hd e hde
      · rw [if_neg hde] at h1
        cases h1
  refine ⟨do_call_hand fuel c call o c1 h hh, ?_⟩
  rcases do_call_sector fuel c call o c1 h with
    ⟨_, start, length, out, hr⟩ | ⟨_, b, start, length, hwr⟩
  · rcases cache_read_partial_effect fuel c _ start length out c1 hr with
      ⟨i, _, _, _, h2, h3, h4⟩ | ⟨_, e, _, _, _, h2, h3, h4⟩
    · refine ⟨fun j hj => ?_, extra, by rw [h2]; exact hlog, hw⟩
      by_cases hji : j = i
      · rw [hji, h3] at hj ⊢
        exact hd i hj
      · rw [h4 j hji] at hj ⊢
        exact hd j hj
    · refine ⟨fun j hj => ?_, ?_⟩
      · by_cases hje : j = e
        · rw [hje, h3] at hj
          cases hj
        · obtain ⟨f1, f2, _⟩ := frame_fields _ _ (h4 j hje)
          rw [f2] at hj
          rw [f1]
          exact hd j hj
      · obtain ⟨extra1, g1, g2⟩ := hwb e
        refine ⟨extra1 ++ [block_op.read (call_sector call)], ?_, fun t b hmem => ?_⟩
        · rw [h2]
          unfold block_read
          dsimp only
          rw [g1, List.append_assoc]
        · rcases List.mem_append.mp hmem with h1 | h1
          · exact g2 t b h1
          · simp at h1
  · rcases cache_write_partial_effect fuel c _ b start length c1 hwr with
      ⟨i, hl, _, h2, h3, h4⟩ | ⟨_, e, _, _, h2, h3, h4⟩
    · refine ⟨fun j hj => ?_, extra, by rw [h2]; exact hlog, hw⟩
      by_cases hji : j = i
      · rw [hji, h3]
        dsimp only
        rw [(is_in_cache_eq_some.mp hl).2.1]
        exact hs
      · rw [h4 j hji] at hj ⊢
        exact hd j hj
    · refine ⟨fun j hj => ?_, ?_⟩
      · by_cases hje : j = e
        · rw [hje, h3]
          exact hs
        · obtain ⟨f1, f2, _⟩ := frame_fields _ _ (h4 j hje)
          rw [f2] at hj
          rw [f1]
          exact hd j hj
      · obtain ⟨extra1, g1, g2⟩ := hwb e
        exact ⟨extra1, by rw [h2]; exact g1, g2⟩

/-- A returning read keeps `read_only_inv`. -/
theorem read_only_inv_step (fuel : Nat) (dev : block_device) (c : cache_state)
    (call : cache_call) (o : List (List Nat)) (c1 : cache_state) (hc : read_only_inv dev c)
    (hread : call_is_read call = true) (h : do_call fuel c call = some (o, c1)) :
    read_only_inv dev c1 := by
  obtain ⟨hh, hd, hcont, extra, hlog, hops⟩ := hc
  refine ⟨do_call_hand fuel c call o c1 h hh, ?_⟩
  rcases do_call_sector fuel c call o c1 h with
    ⟨_, start, length, out, hr⟩ | ⟨hw, _⟩
  · rcases cache_read_partial_effect fuel c _ start length out c1 hr with
      ⟨i, _, _, _, h2, h3, h4⟩ | ⟨_, e, _, _, _, h2, h3, h4⟩
    · refine ⟨fun j => ?_, by rw [h2]; exact hcont, extra, by rw [h2]; exact hlog, hops⟩
      by_cases hji : j = i
      · rw [hji, h3]
        exact hd i
      · rw [h4 j hji]
        exact hd j
    · rw [write_back_clean c e (hd e)] at h2
      refine ⟨fun j => ?_, by rw [h2]; exact hcont,
        extra ++ [block_op.read (call_sector call)], ?_, fun op hmem => ?_⟩
      · by_cases hje : j = e
        · rw [hje, h3]
        · rw [(frame_fields _ _ (h4 j hje)).2.1]
          exact hd j
      · rw [h2]
        unfold block_read
        dsimp only
        rw [hlog, List.append_assoc]
      · rcases List.mem_append.mp hmem with h1 | h1
        · exact hops op h1
        · exact ⟨_, List.mem_singleton.mp h1⟩
  · rw [hread] at hw
    cases hw

/-! ## Filling the table -/

/-- On a miss with the slot under the cursor neither accessed nor dirty,
`cache_get_entry` takes that slot and touches nothing else. -/
theorem cache_get_entry_fill (fuel : Nat) (c : cache_state) (s : Nat) (hf : 1 ≤ fuel)
    (hm : is_in_cache c s = none) (hacc : (c.buffer_cache c.hand).accessed = false)
    (hd : (c.buffer_cache c.hand).dirty = false) :
    ∃ c2, cache_get_entry fuel c s = some (c.hand, c2) ∧ c2.hand = next_hand c.hand ∧
      c2.fs_device = c.fs_device ∧ (c2.buffer_cache c.hand).sector_id = s ∧
      ∀ j, j ≠ c.hand → c2.buffer_cache j = c.buffer_cache j := by
  obtain ⟨n, rfl⟩ : ∃ n, fuel = n + 1 := ⟨fuel - 1, by omega⟩
  have hev := cache_evict_id_unaccessed n c hacc
  have hdf : ¬ (c.buffer_cache c.hand).dirty = true := by
    rw [hd]
    exact Bool.false_ne_true
  refine ⟨{ c with
      hand := next_hand c.hand
      buffer_cache :=
        set_entry c.buffer_cache c.hand
          { c.buffer_cache c.hand with dirty := false, accessed := false, sector_id := s } },
    ?_, rfl, rfl, ?_, fun j hj => ?_⟩
  · unfold cache_get_entry
    rw [hm]
    simp only [hev, if_neg hdf]
  · simp only [set_entry, if_true]
  · simp only [set_entry, if_neg hj]

/-- A returning call that misses while the slot under the cursor is neither
accessed nor dirty installs its sector in that slot and leaves the other slots
as they were. -/
theorem do_call_fill (fuel : Nat) (c : cache_state) (call : cache_call) (o : List (List Nat))
    (c1 : cache_state) (hf : 1 ≤ fuel) (h : do_call fuel c call = some (o, c1))
    (hm : is_in_cache c (call_sector call) = none)
    (hacc : (c.buffer_cache c.hand).accessed = false)
    (hd : (c.buffer_cache c.hand).dirty = false) :
    c1.hand = next_hand c.hand ∧ (c1.buffer_cache c.hand).sector_id = call_sector call ∧
      ∀ j, j ≠ c.hand → c1.buffer_cache j = c.buffer_cache j := by
  obtain ⟨c2, hg, g1, _, g3, g4⟩ := cache_get_entry_fill fuel c _ hf hm hacc hd
  rcases do_call_sector fuel c call o c1 h with
    ⟨_, start, length, out, hr⟩ | ⟨_, b, start, length, hw⟩
  · rw [cache_read_partial_miss fuel c _ start length c.hand c2 hm hg] at hr
    simp only [Option.some.injEq, Prod.mk.injEq] at hr
    rw [← hr.2]
    refine ⟨g1, ?_, fun j hj => ?_⟩
    · simp only [set_entry, if_true]
      exact g3
    · simp only [set_entry, if_neg hj]
      exact g4 j hj
  · rw [cache_write_partial_miss fuel c _ b start length c.hand c2 hm hg] at hw
    simp only [Option.some.injEq] at hw
    rw [← hw]
    refine ⟨g1, ?_, fun j hj => ?_⟩
    · simp only [set_entry, if_true]
      exact g3
    · simp only [set_entry, if_neg hj]
      exact g4 j hj

theorem fill_inv_init (dev : block_device) : fill_inv (cache_init dev) :=
  ⟨Nat.zero_lt_succ 63, 0, Nat.zero_le _, fun _ => rfl,
    fun i hi => absurd hi (Nat.not_lt_zero i), fun _ _ => ⟨rfl, rfl, rfl⟩⟩

/-- A returning call on a real sector keeps `fill_inv`. -/
theorem fill_inv_step (fuel : Nat) (c : cache_state) (call : cache_call) (o : List (List Nat))
    (c1 : cache_state) (hf : 1 ≤ fuel) (hc : fill_inv c)
    (hs : call_sector call ≠ UINT32_MAX) (h : do_call fuel c call = some (o, c1)) :
    fill_inv c1 := by
  obtain ⟨hh, k, hk, hhand, hlow, hhigh⟩ := hc
  refine ⟨do_call_hand fuel c call o c1 h hh, ?_⟩
  rcases do_call_sector_ids fuel c call o c1 h hh with ⟨i, hl, hsid⟩ | ⟨e, he, hm, hse, hsid⟩
  · obtain ⟨_, hsi, _⟩ := is_in_cache_eq_some.mp hl
    have hik : i < k := by
      by_contra hge
      rw [(hhigh i (by omega)).1] at hsi
      exact hs hsi.symm
    have hframe : c1.hand = c.hand ∧ ∀ j, j ≠ i → c1.buffer_cache j = c.buffer_cache j := by
      rcases do_call_sector fuel c call o c1 h with
        ⟨_, start, length, out, hr⟩ | ⟨_, b, start, length, hw⟩
      · rcases cache_read_partial_effect fuel c _ start length out c1 hr with
          ⟨i1, hl1, _, h1, _, _, h4⟩ | ⟨hm1, _⟩
        · rw [hl] at hl1
          simp only [Option.some.injEq] at hl1
          rw [hl1]
          exact ⟨h1, h4⟩
        · rw [hl] at hm1
          cases hm1
      · rcases cache_write_partial_effect fuel c _ b start length c1 hw with
          ⟨i1, hl1, h1, _, _, h4⟩ | ⟨hm1, _⟩
        · rw [hl] at hl1
          simp only [Option.some.injEq] at hl1
          rw [hl1]
          exact ⟨h1, h4⟩
        · rw [hl] at hm1
          cases hm1
    refine ⟨k, hk, fun hk64 => by rw [hframe.1]; exact hhand hk64, fun j hj => ?_, fun j hj => ?_⟩
    · rw [hsid j]
      exact hlow j hj
    · rw [hframe.2 j (by omega)]
      exact hhigh j hj
  · by_cases hk64 : k < BUFFER_CACHE_SIZE
    · have hck : c.hand = k := hhand hk64
      obtain ⟨g1, g2, g3⟩ := do_call_fill fuel c call o c1 hf h hm
        (by rw [hck]; exact (hhigh k (Nat.le_refl k)).2.1)
        (by rw [hck]; exact (hhigh k (Nat.le_refl k)).2.2)
      rw [hck] at g1 g2 g3
      refine ⟨k + 1, hk64, fun hk1 => ?_, fun j hj => ?_, fun j hj => ?_⟩
      · rw [g1]
        unfold next_hand BUFFER_CACHE_SIZE at *
        omega
      · by_cases hjk : j = k
        · rw [hjk, g2]
          exact hs
        · rw [g3 j hjk]
          exact hlow j (by omega)
      · rw [g3 j (by omega)]
        exact hhigh j (by omega)
    · have hk' : k = BUFFER_CACHE_SIZE := by omega
      refine ⟨k, hk, fun h' => absurd h' hk64, fun j hj => ?_, fun j hj => ?_⟩
      · by_cases hje : j = e
        · rw [hje, hse]
          exact hs
        · rw [hsid j hje]
          exact hlow j hj
      · have hje : j ≠ e := by omega
        have hfr : c1.buffer_cache j = c.buffer_cache j ∨
            c1.buffer_cache j = clear_accessed (c.buffer_cache j) := by
          rcases do_call_sector fuel c call o c1 h with
            ⟨_, start, length, out, hr⟩ | ⟨_, b, start, length, hw⟩
          · rcases cache_read_partial_effect fuel c _ start length out c1 hr with
              ⟨i1, hl1, _⟩ | ⟨_, e1, he1, _, _, _, _, h4⟩
            · rw [hm] at hl1
              cases hl1
            · exact h4 j (by have := he1 hh; omega)
          · rcases cache_write_partial_effect fuel c _ b start length c1 hw with
              ⟨i1, hl1, _⟩ | ⟨_, e1, he1, _, _, _, h4⟩
            · rw [hm] at hl1
              cases hl1
            · exact h4 j (by have := he1 hh; omega)
        obtain ⟨a1, a2, a3⟩ := hhigh j hj
        rcases hfr with h1 | h1
        · rw [h1]
          exact ⟨a1, a2, a3⟩
        · rw [h1]
          exact ⟨a1, rfl, a3⟩

/-! ## Claims -/

/-- C1 (read-after-write): from any state with the cursor in range, a
`cache_write_partial` of `length` bytes at `start` (in bounds, from a buffer that
holds at least `length` bytes) followed at once by a `cache_read_partial` of the
same sector and range returns the first `length` bytes of the written buffer, on
the hit path and on the miss path alike. -/
theorem read_after_write (fuel : Nat) (c : cache_state) (s : Nat) (buffer : List Nat)
    (start length : Nat) (hh : c.hand < BUFFER_CACHE_SIZE) (hf : BUFFER_CACHE_SIZE + 1 ≤ fuel)
    (_hb : start + length ≤ BLOCK_SECTOR_SIZE) (hl : length ≤ buffer.length) :
    ∃ c1 c2, cache_write_partial fuel c s buffer start length = some c1 ∧
      cache_read_partial fuel c1 s start length = some (buffer.take length, c2) := by
  cases hlook : is_in_cache c s with
  | some i =>
    have h1 : is_in_cache (cache_write_hit c buffer start length i) s = some i := by
      rw [is_in_cache_congr s (fun j _ => cache_write_hit_sector_id c buffer start length i j)]
      exact hlook
    refine ⟨_, (cache_read_hit (cache_write_hit c buffer start length i) start length i).2,
      cache_write_partial_hit fuel c s buffer start length i hlook, ?_⟩
    rw [cache_read_partial_hit fuel _ s start length i h1]
    congr 1
    refine Prod.ext ?_ rfl
    unfold cache_read_hit cache_write_hit set_entry
    dsimp only
    rw [if_pos rfl]
    exact memcpy_out_in _ start buffer length hl
  | none =>
    obtain ⟨e, _, c2, _, hg, he, _, hslot, hfr, _⟩ := cache_get_entry_miss fuel c s hh hf hlook
    obtain ⟨c3, hc3⟩ : ∃ c3 : cache_state, c3 =
        { c2 with
          buffer_cache :=
            set_entry c2.buffer_cache e
              { c2.buffer_cache e with
                data := memcpy_in (c2.buffer_cache e).data start buffer length
                accessed := true, dirty := true } } := ⟨_, rfl⟩
    have hw := cache_write_partial_miss fuel c s buffer start length e c2 hlook hg
    rw [← hc3] at hw
    have h3e : c3.buffer_cache e =
        { c2.buffer_cache e with
          data := memcpy_in (c2.buffer_cache e).data start buffer length
          accessed := true, dirty := true } := by
      rw [hc3]
      dsimp only
      unfold set_entry
      rw [if_pos rfl]
    have h1 : is_in_cache c3 s = some e := by
      apply is_in_cache_after_miss c c2 c3 s e hlook he hfr
      · rw [h3e, hslot]
      · intro j hj
        rw [hc3]
        dsimp only
        unfold set_entry
        rw [if_neg hj]
    refine ⟨c3, (cache_read_hit c3 start length e).2, hw, ?_⟩
    rw [cache_read_partial_hit fuel c3 s start length e h1]
    congr 1
    refine Prod.ext ?_ rfl
    unfold cache_read_hit
    dsimp only
    rw [h3e]
    exact memcpy_out_in _ start buffer length hl

/-- Witness for C1 on a cold cache (miss path): writing "XY" at offset 4 of sector 9
and reading the range back. -/
theorem read_after_write_witness :
    ∃ c1 c2, cache_write_partial 65 (cache_init sample_device) 9 [88, 89] 4 2 = some c1 ∧
      cache_read_partial 65 c1 9 4 2 = some (List.take 2 [88, 89], c2) :=
  read_after_write 65 (cache_init sample_device) 9 [88, 89] 4 2 (by decide) (by decide)
    (by decide) (by decide)

/-- C2 (transparency): from `cache_init` over any device, a sequence of
full-sector writes and in-bounds reads on sectors other than `UINT32_MAX`
returns, read by read, the bytes the cache-less reference returns, and at the
end the logical content of every such sector (the data of the slot naming it,
else the device) is the reference content. -/
theorem transparency (dev : block_device) (calls : List cache_call) (fuel : Nat)
    (hf : BUFFER_CACHE_SIZE + 1 ≤ fuel)
    (ht : ∀ call, call ∈ calls → transparent_call call) :
    ∃ c1, run fuel (cache_init dev) calls = some ((ref_run dev.contents calls).1, c1) ∧
      ∀ s, s ≠ UINT32_MAX → ∀ j, j < BLOCK_SECTOR_SIZE →
        logical_content c1 s j = (ref_run dev.contents calls).2 s j := by
  obtain ⟨c1, hrun, _, _, hres, hcont⟩ :=
    cache_sim_run fuel hf calls (cache_init dev) dev.contents (cache_sim_init dev) ht
  refine ⟨c1, hrun, fun s hs j hj => ?_⟩
  unfold logical_content
  cases hl : is_in_cache c1 s with
  | some i =>
    obtain ⟨hi, hsi, _⟩ := is_in_cache_eq_some.mp hl
    have := hres i hi (by rw [hsi]; exact hs) j hj
    rwa [hsi] at this
  | none =>
    exact hcont s hs (fun i hi h => absurd h (is_in_cache_eq_none.mp hl i hi)) j hj

/-- Witness for C2: a write of sector 3, a read of it, and a read of bytes 0 to 9
of sector 4, on a cold cache over the sample device. -/
theorem transparency_witness :
    ∃ c1, run 65 (cache_init sample_device)
        [cache_call.wr 3 (List.replicate 512 1), cache_call.rd 3, cache_call.rd_part 4 0 10] =
        some ((ref_run sample_device.contents
          [cache_call.wr 3 (List.replicate 512 1), cache_call.rd 3,
            cache_call.rd_part 4 0 10]).1, c1) ∧
      ∀ s, s ≠ UINT32_MAX → ∀ j, j < BLOCK_SECTOR_SIZE →
        logical_content c1 s j = (ref_run sample_device.contents
          [cache_call.wr 3 (List.replicate 512 1), cache_call.rd 3,
            cache_call.rd_part 4 0 10]).2 s j :=
  transparency sample_device
    [cache_call.wr 3 (List.replicate 512 1), cache_call.rd 3, cache_call.rd_part 4 0 10] 65
    (by decide) (by decide)

/-- C3 (fetch-then-patch on a write miss), evaluated on the code: on a cold
cache over the sample device, `cache_write_partial (9, "XY", 4, 2)` followed by
`cache_read (9)` returns the slot's old bytes (zeros) outside `[4, 6)`, not the
bytes of sector 9 on the device: `cache_write_miss` issues no `block_read`. -/
theorem write_miss_skips_fetch :
    ( cache_write_partial 65 (cache_init sample_device) 9 [88, 89] 4 2).bind
        (fun c1 => (cache_read 65 c1 9).map Prod.fst) =
      some (memcpy_out (memcpy_in (fun _ => 0) 4 [88, 89] 2) 0 BLOCK_SECTOR_SIZE) ∧
    memcpy_out (memcpy_in (fun _ => 0) 4 [88, 89] 2) 0 BLOCK_SECTOR_SIZE ≠
      memcpy_out (memcpy_in (sample_device.contents 9) 4 [88, 89] 2) 0 BLOCK_SECTOR_SIZE ∧
    ( cache_write_partial 65 (cache_init sample_device) 9 [88, 89] 4 2).map
        (fun c1 => c1.fs_device.log) = some [] := by
  refine ⟨by decide!, by decide!, by decide!⟩

/-- C4 (single write-back): on a lookup miss `cache_get_entry` takes the victim
`e` of the sweep and appends to the device log exactly one `block_write` when
the victim is dirty and nothing when it is clean; the write carries the victim's
old sector id (which is not the new sector) and its 512 data bytes, the slot is
renamed afterwards, and on the read path the `block_read` of the new sector is
logged after it. -/
theorem single_write_back (fuel : Nat) (c : cache_state) (s start length : Nat)
    (hh : c.hand < BUFFER_CACHE_SIZE) (hf : BUFFER_CACHE_SIZE + 1 ≤ fuel)
    (hm : is_in_cache c s = none) :
    ∃ e c1 c2 out c3,
      cache_evict_id fuel c = some (e, c1) ∧ e < BUFFER_CACHE_SIZE ∧
      cache_get_entry fuel c s = some (e, c2) ∧
      (c.buffer_cache e).sector_id ≠ s ∧ (c2.buffer_cache e).sector_id = s ∧
      c2.fs_device.log = c.fs_device.log ++
        (if (c.buffer_cache e).dirty then
          [block_op.write (c.buffer_cache e).sector_id (sector_bytes (c.buffer_cache e).data)]
        else []) ∧
      ((c.buffer_cache e).dirty = true →
        c2.fs_device.contents (c.buffer_cache e).sector_id = (c.buffer_cache e).data) ∧
      cache_read_partial fuel c s start length = some (out, c3) ∧
      c3.fs_device.log = c2.fs_device.log ++ [block_op.read s] := by
  obtain ⟨e, c1, c2, hev, hg, he, _, hslot, _, hdev⟩ := cache_get_entry_miss fuel c s hh hf hm
  refine ⟨e, c1, c2, _, _, hev, he, hg, ?_, ?_, ?_, ?_,
    cache_read_partial_miss fuel c s start length e c2 hm hg, rfl⟩
  · exact (is_in_cache_eq_none.mp hm) e he
  · rw [hslot]
  · rw [hdev]
    split
    · rfl
    · rw [List.append_nil]
  · intro hd
    rw [hdev, if_pos hd]
    unfold block_write
    dsimp only
    rw [if_pos rfl]

/-- Witness for C4 (Scenario B): after reading sectors 0 to 63 and overwriting
sector 0, the read of sector 64 is a miss whose device log ends with the
write-back of the new bytes to sector 0 followed by the read of sector 64. -/
theorem single_write_back_witness :
    (∃ e c1 c2 out c3,
      cache_evict_id 65 scenario_B_state = some (e, c1) ∧ e < BUFFER_CACHE_SIZE ∧
      cache_get_entry 65 scenario_B_state 64 = some (e, c2) ∧
      (scenario_B_state.buffer_cache e).sector_id ≠ 64 ∧ (c2.buffer_cache e).sector_id = 64 ∧
      c2.fs_device.log = scenario_B_state.fs_device.log ++
        (if (scenario_B_state.buffer_cache e).dirty then
          [block_op.write (scenario_B_state.buffer_cache e).sector_id
            (sector_bytes (scenario_B_state.buffer_cache e).data)]
        else []) ∧
      ((scenario_B_state.buffer_cache e).dirty = true →
        c2.fs_device.contents (scenario_B_state.buffer_cache e).sector_id =
          (scenario_B_state.buffer_cache e).data) ∧
      cache_read_partial 65 scenario_B_state 64 0 BLOCK_SECTOR_SIZE = some (out, c3) ∧
      c3.fs_device.log = c2.fs_device.log ++ [block_op.read 64]) ∧
    (cache_read 65 scenario_B_state 64).map (fun r => r.2.fs_device.log.drop 64) =
      some [block_op.write 0 (List.replicate BLOCK_SECTOR_SIZE 7), block_op.read 64] :=
  ⟨single_write_back 65 scenario_B_state 64 0 BLOCK_SECTOR_SIZE (by decide!) (by decide)
    (by decide!), by decide!⟩

/-- C5 (Scenario A): on a cold cache over any device, after `cache_read` of sectors
0, 1, ..., 63 in order slot 0 holds sector 0 and the sweep picks slot 0;
`cache_read (64)` then leaves sector 64 in slot 0, sector 0 a lookup miss and
sectors 1 to 63 resident in their slots, and the whole run has only read the
device: its contents are unchanged and its log holds the 65 reads and no
write. -/
theorem scenario_A (dev : block_device) (fuel : Nat) (hf : BUFFER_CACHE_SIZE + 1 ≤ fuel) :
    ∃ outs c64 c1 out c65,
      run fuel (cache_init dev) scenario_reads = some (outs, c64) ∧
      is_in_cache c64 0 = some 0 ∧
      cache_evict_id fuel c64 = some (0, c1) ∧
      cache_read fuel c64 64 = some (out, c65) ∧
      (c65.buffer_cache 0).sector_id = 64 ∧
      is_in_cache c65 0 = none ∧
      (∀ i, 1 ≤ i → i < BUFFER_CACHE_SIZE → is_in_cache c65 i = some i) ∧
      c65.fs_device.contents = dev.contents ∧
      c65.fs_device.log = dev.log ++ (List.range 65).map block_op.read := by
  obtain ⟨outs, c, hrun, h1, h2, _, h4, h5⟩ :=
    filled_run dev fuel (by omega) BUFFER_CACHE_SIZE (Nat.le_refl _)
  have hhand : c.hand = 0 := h1
  have hm : is_in_cache c 64 = none := by
    rw [is_in_cache_eq_none]
    intro i hi
    rw [(h2 i hi).1]
    unfold BUFFER_CACHE_SIZE at hi
    omega
  obtain ⟨c1, hev, g1, g2, g3⟩ := cache_evict_id_all_accessed fuel c
    (by rw [hhand]; decide) hf (fun i hi => (h2 i hi).2.1)
  rw [hhand] at hev g1
  obtain ⟨out, c3, hr, r1, r2, r3, r4⟩ :=
    cache_read_partial_miss_exact fuel c 64 0 BLOCK_SECTOR_SIZE 0 c1 hm hev
  have hc1 : ∀ j, j < BUFFER_CACHE_SIZE → (c1.buffer_cache j).sector_id = j ∧
      (c1.buffer_cache j).dirty = false := by
    intro j hj
    rw [g3, if_pos hj]
    exact ⟨(h2 j hj).1, (h2 j hj).2.2⟩
  have hwb : write_back c1 0 = c.fs_device := by
    unfold write_back
    rw [if_neg, g2]
    rw [(hc1 0 (by decide)).2]
    exact Bool.false_ne_true
  rw [hwb] at r2
  have hsid : ∀ j, 1 ≤ j → j < BUFFER_CACHE_SIZE → (c3.buffer_cache j).sector_id = j := by
    intro j hj1 hj2
    rw [r4 j (by omega)]
    exact (hc1 j hj2).1
  have hsid0 : (c3.buffer_cache 0).sector_id = 64 := by rw [r3]
  refine ⟨outs, c, c1, out, c3, hrun, ?_, hev, hr, hsid0, ?_, ?_, ?_, ?_⟩
  · rw [is_in_cache_eq_some]
    exact ⟨by decide, (h2 0 (by decide)).1, fun j hj => absurd hj (Nat.not_lt_zero j)⟩
  · rw [is_in_cache_eq_none]
    intro i hi
    by_cases hi0 : i = 0
    · subst hi0
      rw [hsid0]
      decide
    · rw [hsid i (by omega) hi]
      exact hi0
  · intro i hi1 hi2
    rw [is_in_cache_eq_some]
    refine ⟨hi2, hsid i hi1 hi2, fun j hj => ?_⟩
    by_cases hj0 : j = 0
    · subst hj0
      rw [hsid0]
      unfold BUFFER_CACHE_SIZE at hi2
      omega
    · rw [hsid j (by omega) (by omega)]
      omega
  · rw [r2]
    exact h4
  · rw [r2]
    unfold block_read
    dsimp only
    rw [h5, List.append_assoc]
    rfl

/-- Witness for C5: the sample device and a loop budget of 65. -/
theorem scenario_A_witness :
    ∃ outs c64 c1 out c65,
      run 65 (cache_init sample_device) scenario_reads = some (outs, c64) ∧
      is_in_cache c64 0 = some 0 ∧
      cache_evict_id 65 c64 = some (0, c1) ∧
      cache_read 65 c64 64 = some (out, c65) ∧
      (c65.buffer_cache 0).sector_id = 64 ∧
      is_in_cache c65 0 = none ∧
      (∀ i, 1 ≤ i → i < BUFFER_CACHE_SIZE → is_in_cache c65 i = some i) ∧
      c65.fs_device.contents = sample_device.contents ∧
      c65.fs_device.log = sample_device.log ++ (List.range 65).map block_op.read :=
  scenario_A sample_device 65 (by decide)

/-- C6 as stated fails at the sentinel: right after `cache_init` every slot holds
`UINT32_MAX`, a value of `block_sector_t`, and a lookup of it hits slot 0. -/
theorem cold_start_sentinel_hit :
    UINT32_MAX < 2 ^ 32 ∧ is_in_cache (cache_init sample_device) UINT32_MAX = some 0 := by
  decide

/-- C6 (cold-start miss), amended: right after `cache_init`, a lookup of any
sector other than the sentinel `UINT32_MAX` is a miss. -/
theorem cold_start_miss (dev : block_device) (s : Nat) (hs : s ≠ UINT32_MAX) :
    is_in_cache (cache_init dev) s = none := by
  rw [is_in_cache_eq_none]
  intro i _ h
  exact hs h.symm

/-- Witness for C6: sector 0 on a cold cache. -/
theorem cold_start_miss_witness :
    (0 : Nat) ≠ UINT32_MAX ∧ is_in_cache (cache_init sample_device) 0 = none :=
  ⟨by decide, cold_start_miss sample_device 0 (by decide)⟩

/-- C7 as stated fails: with `start + length = 513 + 0 > 512` on a cold cache,
`cache_read_partial` and `cache_write_partial` both return normally and have
taken slot 0 for the sector, moved the cursor, and (the read) called the
device. -/
theorem out_of_range_call_proceeds :
    ( cache_read_partial 65 (cache_init sample_device) 7 513 0).map
        (fun r => (r.1, r.2.hand, (r.2.buffer_cache 0).sector_id, r.2.fs_device.log)) =
      some ([], 1, 7, [block_op.read 7]) ∧
    ( cache_write_partial 65 (cache_init sample_device) 7 [] 513 0).map
        (fun c1 => (c1.hand, (c1.buffer_cache 0).sector_id, (c1.buffer_cache 0).dirty)) =
      some (1, 7, true) ∧
    (cache_init sample_device).hand = 0 ∧
    ((cache_init sample_device).buffer_cache 0).sector_id = UINT32_MAX := by
  decide

/-- C7 (boundary check), amended: neither function compares `start + length`
with the sector width and neither has an error result.  From a state with the
cursor in range, a call with `start > 512` and `length = 0` (so that
`start + length > 512` and no byte is copied) is not rejected: both functions
return, the read with no bytes, and afterwards the sector is a lookup hit on a
slot marked accessed (and dirty, for the write). -/
theorem out_of_range_not_rejected (fuel : Nat) (c : cache_state) (s : Nat) (buffer : List Nat)
    (start : Nat) (hh : c.hand < BUFFER_CACHE_SIZE) (hf : BUFFER_CACHE_SIZE + 1 ≤ fuel)
    (_hb : BLOCK_SECTOR_SIZE < start + 0) :
    (∃ c1 i, cache_read_partial fuel c s start 0 = some ([], c1) ∧
      is_in_cache c1 s = some i ∧ (c1.buffer_cache i).accessed = true) ∧
    (∃ c2 k, cache_write_partial fuel c s buffer start 0 = some c2 ∧
      is_in_cache c2 s = some k ∧ (c2.buffer_cache k).accessed = true ∧
      (c2.buffer_cache k).dirty = true) := by
  obtain ⟨out, c1, hr⟩ := cache_read_partial_total fuel c s start 0 hh hf
  obtain ⟨c2, hw⟩ := cache_write_partial_total fuel c s buffer start 0 hh hf
  obtain ⟨i, h1, h2, _⟩ := cache_read_partial_resident fuel c s start 0 out c1 hh hr
  obtain ⟨k, h3, h4, h5⟩ := cache_write_partial_resident fuel c s buffer start 0 c2 hh hw
  have hout : out = [] := by
    rcases cache_read_partial_effect fuel c s start 0 out c1 hr with
      ⟨_, _, ho, _⟩ | ⟨_, _, _, ho, _⟩
    · rw [ho]
      rfl
    · rw [ho]
      rfl
  rw [hout] at hr
  exact ⟨⟨c1, i, hr, h1, h2⟩, ⟨c2, k, hw, h3, h4, h5⟩⟩

/-- Witness for C7: offset 513, length 0 on a cold cache. -/
theorem out_of_range_not_rejected_witness :
    (∃ c1 i, cache_read_partial 65 (cache_init sample_device) 7 513 0 = some ([], c1) ∧
      is_in_cache c1 7 = some i ∧ (c1.buffer_cache i).accessed = true) ∧
    (∃ c2 k, cache_write_partial 65 (cache_init sample_device) 7 [1] 513 0 = some c2 ∧
      is_in_cache c2 7 = some k ∧ (c2.buffer_cache k).accessed = true ∧
      (c2.buffer_cache k).dirty = true) :=
  out_of_range_not_rejected 65 (cache_init sample_device) 7 [1] 513 (by decide) (by decide)
    (by decide)

/-- C8 as stated fails: in a table where slot 0 has an active reader and the
cursor stands on it, the sweep returns slot 0. -/
theorem evicts_slot_in_use :
    pinned_state.hand < BUFFER_CACHE_SIZE ∧
    (cache_evict_id 65 pinned_state).map (fun r => (r.1, (r.2.buffer_cache r.1).AR)) =
      some (0, 1) := by
  decide

/-- C8 (no eviction under use), amended: in every state reached from `cache_init`
by a sequence of in-bounds API calls, the sweep returns a slot with `AR = 0` and
`AW = 0` (no function of the file changes the counters after `cache_init`). -/
theorem victim_unused_when_reachable (dev : block_device) (calls : List cache_call) (fuel : Nat)
    (hf : BUFFER_CACHE_SIZE + 1 ≤ fuel)
    (hb : ∀ call, call ∈ calls → call_in_bounds call) :
    ∃ outs c r c1, run fuel (cache_init dev) calls = some (outs, c) ∧
      cache_evict_id fuel c = some (r, c1) ∧ r < BUFFER_CACHE_SIZE ∧
      (c.buffer_cache r).AR = 0 ∧ (c.buffer_cache r).AW = 0 ∧
      (c1.buffer_cache r).AR = 0 ∧ (c1.buffer_cache r).AW = 0 := by
  obtain ⟨outs, c, hrun, hh, hz⟩ := run_counters_zero dev calls fuel hf hb
  obtain ⟨r, c1, he, hr, _, _, _, hfr⟩ := cache_evict_id_total fuel c hh hf
  refine ⟨outs, c, r, c1, hrun, he, hr, (hz r).1, (hz r).2, ?_, ?_⟩
  · rcases hfr r with h | h <;> rw [h]
    · exact (hz r).1
    · exact (hz r).1
  · rcases hfr r with h | h <;> rw [h]
    · exact (hz r).2
    · exact (hz r).2

/-- Witness for C8: the state after Scenario A's 65 reads and an in-bounds write
of two bytes. -/
theorem victim_unused_when_reachable_witness :
    ∃ outs c r c1,
      run 65 (cache_init sample_device)
        (scenario_reads ++ [cache_call.rd 64, cache_call.wr_part 7 [1, 2] 510 2]) =
        some (outs, c) ∧
      cache_evict_id 65 c = some (r, c1) ∧ r < BUFFER_CACHE_SIZE ∧
      (c.buffer_cache r).AR = 0 ∧ (c.buffer_cache r).AW = 0 ∧
      (c1.buffer_cache r).AR = 0 ∧ (c1.buffer_cache r).AW = 0 :=
  victim_unused_when_reachable sample_device
    (scenario_reads ++ [cache_call.rd 64, cache_call.wr_part 7 [1, 2] 510 2]) 65
    (by decide) (by decide)

/-- C9 (sweep termination): from any table state with the cursor in range and a
slot without an active holder, `cache_evict_id` returns a victim index below 64
within `2 * 64 = 128` iterations of its loop (any budget from 128 up gives the
same result). -/
theorem sweep_terminates (c : cache_state) (hh : c.hand < BUFFER_CACHE_SIZE)
    (_hfree : ∃ i, i < BUFFER_CACHE_SIZE ∧ (c.buffer_cache i).AR = 0 ∧
      (c.buffer_cache i).AW = 0) :
    ∃ r c1, r < BUFFER_CACHE_SIZE ∧
      ∀ fuel, 2 * BUFFER_CACHE_SIZE ≤ fuel → cache_evict_id fuel c = some (r, c1) := by
  obtain ⟨r, c1, he, hr, _⟩ :=
    cache_evict_id_total (2 * BUFFER_CACHE_SIZE) c hh (by decide)
  refine ⟨r, c1, hr, fun fuel hf => ?_⟩
  obtain ⟨k, rfl⟩ : ∃ k, fuel = 2 * BUFFER_CACHE_SIZE + k := ⟨fuel - 2 * BUFFER_CACHE_SIZE, by omega⟩
  exact cache_evict_id_mono _ k c _ he

/-- Witness for C9: the table `cache_init` leaves. -/
theorem sweep_terminates_witness :
    ∃ r c1, r < BUFFER_CACHE_SIZE ∧
      ∀ fuel, 2 * BUFFER_CACHE_SIZE ≤ fuel →
        cache_evict_id fuel (cache_init sample_device) = some (r, c1) :=
  sweep_terminates (cache_init sample_device) (by decide) ⟨0, by decide, rfl, rfl⟩

/-- C10 (a write on a hit patches only its range): when sector `s` is resident
in slot `i`, an in-bounds `cache_write_partial` leaves in the slot's data the
buffer's bytes on `[start, start + length)` and the previous bytes everywhere
else, and a `cache_read_partial` of the same range then returns the buffer. -/
theorem write_hit_patches_range (fuel : Nat) (c : cache_state) (s i : Nat) (buffer : List Nat)
    (start length : Nat) (hit : is_in_cache c s = some i)
    (_hb : start + length ≤ BLOCK_SECTOR_SIZE) (hl : length ≤ buffer.length) :
    ∃ c1 c2, cache_write_partial fuel c s buffer start length = some c1 ∧
      is_in_cache c1 s = some i ∧
      (∀ j, start ≤ j → j < start + length →
        (c1.buffer_cache i).data j = buffer.getD (j - start) 0) ∧
      (∀ j, j < start ∨ start + length ≤ j →
        (c1.buffer_cache i).data j = (c.buffer_cache i).data j) ∧
      cache_read_partial fuel c1 s start length = some (buffer.take length, c2) := by
  have hw := cache_write_partial_hit fuel c s buffer start length i hit
  have hd : ((cache_write_hit c buffer start length i).buffer_cache i).data =
      memcpy_in (c.buffer_cache i).data start buffer length := by
    unfold cache_write_hit set_entry
    dsimp only
    rw [if_pos rfl]
  have h1 : is_in_cache (cache_write_hit c buffer start length i) s = some i := by
    rw [is_in_cache_congr s (fun j _ => cache_write_hit_sector_id c buffer start length i j)]
    exact hit
  refine ⟨_, (cache_read_hit (cache_write_hit c buffer start length i) start length i).2,
    hw, h1, ?_, ?_, ?_⟩
  · intro j hj1 hj2
    rw [hd]
    exact memcpy_in_inside _ _ _ _ _ hj1 hj2
  · intro j hj
    rw [hd]
    exact memcpy_in_outside _ _ _ _ _ hj
  · rw [cache_read_partial_hit fuel _ s start length i h1]
    congr 1
    refine Prod.ext ?_ rfl
    unfold cache_read_hit
    dsimp only
    rw [hd]
    exact memcpy_out_in _ start buffer length hl

/-- Witness for C10 (Scenario C): sector 5 resident in slot 0, "AB" written at
offset 10. -/
theorem write_hit_patches_range_witness :
    ∃ c1 c2, cache_write_partial 65 scenario_C_state 5 [65, 66] 10 2 = some c1 ∧
      is_in_cache c1 5 = some 0 ∧
      (∀ j, 10 ≤ j → j < 10 + 2 →
        (c1.buffer_cache 0).data j = [65, 66].getD (j - 10) 0) ∧
      (∀ j, j < 10 ∨ 10 + 2 ≤ j →
        (c1.buffer_cache 0).data j = (scenario_C_state.buffer_cache 0).data j) ∧
      cache_read_partial 65 c1 5 10 2 = some (List.take 2 [65, 66], c2) :=
  write_hit_patches_range 65 scenario_C_state 5 0 [65, 66] 10 2 (by decide) (by decide)
    (by decide)

/-- C12 (lookup correctness): `is_in_cache` reports a miss exactly when no slot
of the table names the sector, and otherwise returns the lowest index in `0 .. 63`
whose slot names it.  The function only reads the table: it returns an index and
no state. -/
theorem lookup_correct (c : cache_state) (s : Nat) :
    (is_in_cache c s = none ↔ ∀ i, i < BUFFER_CACHE_SIZE → (c.buffer_cache i).sector_id ≠ s) ∧
    ∀ i, is_in_cache c s = some i ↔
      i < BUFFER_CACHE_SIZE ∧ (c.buffer_cache i).sector_id = s ∧
        ∀ j, j < i → (c.buffer_cache j).sector_id ≠ s :=
  ⟨is_in_cache_eq_none, fun _ => is_in_cache_eq_some⟩

/-- C13 (clock sweep against its reference): from a state with the cursor in
range, `cache_evict_id` returns the reference victim (the first slot in circular
order from the cursor whose `accessed` flag is false, or the slot under the
cursor if all are accessed); afterwards `accessed` is false on the slots swept
before the victim (all 64 when every slot was accessed) and unchanged on the
others, the cursor is `(victim + 1) % 64`, and no sector id, dirty flag, data
byte or the device has changed. -/
theorem clock_sweep (fuel : Nat) (c : cache_state) (hh : c.hand < BUFFER_CACHE_SIZE)
    (hf : BUFFER_CACHE_SIZE + 1 ≤ fuel) :
    ∃ c1, cache_evict_id fuel c = some (clock_victim c, c1) ∧
      clock_victim c < BUFFER_CACHE_SIZE ∧
      c1.hand = (clock_victim c + 1) % BUFFER_CACHE_SIZE ∧
      c1.fs_device = c.fs_device ∧
      ∀ j, (c1.buffer_cache j).accessed =
          (if clock_swept c j = true then false else (c.buffer_cache j).accessed) ∧
        (c1.buffer_cache j).sector_id = (c.buffer_cache j).sector_id ∧
        (c1.buffer_cache j).dirty = (c.buffer_cache j).dirty ∧
        (c1.buffer_cache j).data = (c.buffer_cache j).data := by
  cases hfst : clock_first c with
  | some r =>
    obtain ⟨n, hn, hr, hracc, hpre⟩ := clock_first_eq_some c r hfst
    have hv : clock_victim c = r := by
      unfold clock_victim
      rw [hfst]
      rfl
    have hr64 : r < BUFFER_CACHE_SIZE := by
      rw [hr]
      exact Nat.mod_lt _ (by decide)
    have hposr : clock_pos c.hand r = n := by
      unfold clock_pos
      rw [hr]
      unfold BUFFER_CACHE_SIZE at *
      omega
    obtain ⟨k, rfl⟩ : ∃ k, fuel = n + (k + 1) := ⟨fuel - n - 1, by
      unfold BUFFER_CACHE_SIZE at *
      omega⟩
    obtain ⟨c1, h1, h2, h3, h4⟩ := cache_evict_id_prefix n (k + 1) c hh (Nat.le_of_lt hn) hpre
    have hc1 : c1.hand = r := by rw [h1, hr]
    have hclr : (c1.buffer_cache c1.hand).accessed = false := by
      rw [hc1, h3, if_neg]
      · exact hracc
      · intro hcond
        have := hcond.2
        unfold clock_pos at hposr
        omega
    refine ⟨{ c1 with hand := next_hand c1.hand }, ?_, ?_, ?_, h2, fun j => ?_⟩
    · rw [h4, cache_evict_id_unaccessed k c1 hclr, hc1, hv]
    · rw [hv]
      exact hr64
    · rw [hv]
      dsimp only
      rw [hc1]
      unfold next_hand BUFFER_CACHE_SIZE at *
      omega
    · dsimp only
      rw [h3]
      have hsw : clock_swept c j = true ↔
          (j < BUFFER_CACHE_SIZE ∧ (j + BUFFER_CACHE_SIZE - c.hand) % BUFFER_CACHE_SIZE < n) := by
        unfold clock_swept
        rw [hfst]
        simp only [Bool.and_eq_true, decide_eq_true_eq, hposr]
        rfl
      by_cases hcond : j < BUFFER_CACHE_SIZE ∧
          (j + BUFFER_CACHE_SIZE - c.hand) % BUFFER_CACHE_SIZE < n
      · rw [if_pos hcond, if_pos (hsw.mpr hcond)]
        exact ⟨rfl, rfl, rfl, rfl⟩
      · rw [if_neg hcond, if_neg (fun h => hcond (hsw.mp h))]
        exact ⟨rfl, rfl, rfl, rfl⟩
  | none =>
    have hall := clock_first_eq_none c hh hfst
    have hv : clock_victim c = c.hand := by
      unfold clock_victim
      rw [hfst]
      rfl
    obtain ⟨c1, h1, h2, h3, h4⟩ := cache_evict_id_all_accessed fuel c hh hf hall
    refine ⟨c1, by rw [hv]; exact h1, by rw [hv]; exact hh, ?_, h3, fun j => ?_⟩
    · rw [h2, hv]
      unfold next_hand BUFFER_CACHE_SIZE at *
      omega
    · rw [h4]
      have hsw : clock_swept c j = true ↔ j < BUFFER_CACHE_SIZE := by
        unfold clock_swept
        rw [hfst]
        simp only [Bool.and_true, decide_eq_true_eq]
      by_cases hcond : j < BUFFER_CACHE_SIZE
      · rw [if_pos hcond, if_pos (hsw.mpr hcond)]
        exact ⟨rfl, rfl, rfl, rfl⟩
      · rw [if_neg hcond, if_neg (fun h => hcond (hsw.mp h))]
        exact ⟨rfl, rfl, rfl, rfl⟩

/-- Witness for C13: with the cursor at 62 and slots 62, 63, 0 accessed, the
sweep wraps around and returns slot 1. -/
theorem clock_sweep_witness :
    (∃ c1, cache_evict_id 65 sweep_sample_state = some (clock_victim sweep_sample_state, c1) ∧
      clock_victim sweep_sample_state < BUFFER_CACHE_SIZE ∧
      c1.hand = (clock_victim sweep_sample_state + 1) % BUFFER_CACHE_SIZE ∧
      c1.fs_device = sweep_sample_state.fs_device ∧
      ∀ j, (c1.buffer_cache j).accessed =
          (if clock_swept sweep_sample_state j = true then false
            else (sweep_sample_state.buffer_cache j).accessed) ∧
        (c1.buffer_cache j).sector_id = (sweep_sample_state.buffer_cache j).sector_id ∧
        (c1.buffer_cache j).dirty = (sweep_sample_state.buffer_cache j).dirty ∧
        (c1.buffer_cache j).data = (sweep_sample_state.buffer_cache j).data) ∧
    clock_victim sweep_sample_state = 1 ∧
    (List.range BUFFER_CACHE_SIZE).filter (clock_swept sweep_sample_state) = [0, 62, 63] :=
  ⟨clock_sweep 65 sweep_sample_state (by decide) (by decide), by decide, by decide⟩

/-- C14 (write-back, not write-through): an in-bounds `cache_write_partial` of a
resident sector leaves the device (contents and log), the cursor, every other
slot and the hit slot's sector id unchanged; and whatever a returning
`cache_write_partial` does to the device is the write-back of a dirty victim
inside `cache_get_entry`: the device is unchanged, or has had exactly one
`block_write` of a dirty slot's sector and data. -/
theorem write_defers_device (fuel : Nat) (c : cache_state) (s i : Nat) (buffer : List Nat)
    (start length : Nat) (hit : is_in_cache c s = some i)
    (_hb : start + length ≤ BLOCK_SECTOR_SIZE) :
    (∃ c1, cache_write_partial fuel c s buffer start length = some c1 ∧
      c1.fs_device = c.fs_device ∧ c1.hand = c.hand ∧
      (∀ j, j ≠ i → c1.buffer_cache j = c.buffer_cache j) ∧
      (c1.buffer_cache i).sector_id = (c.buffer_cache i).sector_id) ∧
    ∀ (t : Nat) (b : List Nat) (st len : Nat) (c2 : cache_state),
      cache_write_partial fuel c t b st len = some c2 →
      c2.fs_device = c.fs_device ∨
      ∃ e, is_in_cache c t = none ∧ (c.buffer_cache e).dirty = true ∧
        c2.fs_device =
          block_write c.fs_device (c.buffer_cache e).sector_id (c.buffer_cache e).data := by
  refine ⟨?_, fun t b st len c2 hw => ?_⟩
  · have hw := cache_write_partial_hit fuel c s buffer start length i hit
    rcases cache_write_partial_effect fuel c s buffer start length _ hw with
      ⟨k, hl, h1, h2, h3, h4⟩ | ⟨hm, _⟩
    · rw [hit] at hl
      simp only [Option.some.injEq] at hl
      subst hl
      exact ⟨_, hw, h2, h1, h4, by rw [h3]⟩
    · rw [hit] at hm
      cases hm
  · rcases cache_write_partial_effect fuel c t b st len c2 hw with
      ⟨k, _, _, h2, _⟩ | ⟨hm, e, _, _, h2, _⟩
    · exact Or.inl h2
    · by_cases hd : (c.buffer_cache e).dirty = true
      · right
        refine ⟨e, hm, hd, ?_⟩
        rw [h2]
        unfold write_back
        rw [if_pos hd]
      · left
        rw [h2]
        unfold write_back
        rw [if_neg hd]

/-- Witness for C14 (Scenario C state): sector 5 resident in slot 0. -/
theorem write_defers_device_witness :
    (∃ c1, cache_write_partial 65 scenario_C_state 5 [65, 66] 10 2 = some c1 ∧
      c1.fs_device = scenario_C_state.fs_device ∧ c1.hand = scenario_C_state.hand ∧
      (∀ j, j ≠ 0 → c1.buffer_cache j = scenario_C_state.buffer_cache j) ∧
      (c1.buffer_cache 0).sector_id = (scenario_C_state.buffer_cache 0).sector_id) ∧
    ∀ (t : Nat) (b : List Nat) (st len : Nat) (c2 : cache_state),
      cache_write_partial 65 scenario_C_state t b st len = some c2 →
      c2.fs_device = scenario_C_state.fs_device ∨
      ∃ e, is_in_cache scenario_C_state t = none ∧
        (scenario_C_state.buffer_cache e).dirty = true ∧
        c2.fs_device =
          block_write scenario_C_state.fs_device (scenario_C_state.buffer_cache e).sector_id
            (scenario_C_state.buffer_cache e).data :=
  write_defers_device 65 scenario_C_state 5 0 [65, 66] 10 2 (by decide) (by decide)

/-- C15 (flags after a read or a write): from a state with the cursor in range,
an in-bounds `cache_read_partial` or `cache_write_partial`, hit or miss, returns
and leaves the sector a lookup hit on a slot with `accessed` set; after the
write that slot is dirty, and after a read that missed it is clean. -/
theorem flags_after_call (fuel : Nat) (c : cache_state) (s : Nat) (buffer : List Nat)
    (start length : Nat) (hh : c.hand < BUFFER_CACHE_SIZE) (hf : BUFFER_CACHE_SIZE + 1 ≤ fuel)
    (_hb : start + length ≤ BLOCK_SECTOR_SIZE) :
    (∃ out c1 i, cache_read_partial fuel c s start length = some (out, c1) ∧
      is_in_cache c1 s = some i ∧ (c1.buffer_cache i).accessed = true ∧
      (is_in_cache c s = none → (c1.buffer_cache i).dirty = false)) ∧
    (∃ c2 k, cache_write_partial fuel c s buffer start length = some c2 ∧
      is_in_cache c2 s = some k ∧ (c2.buffer_cache k).accessed = true ∧
      (c2.buffer_cache k).dirty = true) := by
  obtain ⟨out, c1, hr⟩ := cache_read_partial_total fuel c s start length hh hf
  obtain ⟨c2, hw⟩ := cache_write_partial_total fuel c s buffer start length hh hf
  obtain ⟨i, h1, h2, h3⟩ := cache_read_partial_resident fuel c s start length out c1 hh hr
  obtain ⟨k, h4, h5, h6⟩ := cache_write_partial_resident fuel c s buffer start length c2 hh hw
  exact ⟨⟨out, c1, i, hr, h1, h2, h3⟩, ⟨c2, k, hw, h4, h5, h6⟩⟩

/-- Witness for C15: sector 9 on a cold cache (miss paths). -/
theorem flags_after_call_witness :
    (∃ out c1 i, cache_read_partial 65 (cache_init sample_device) 9 4 2 = some (out, c1) ∧
      is_in_cache c1 9 = some i ∧ (c1.buffer_cache i).accessed = true ∧
      (is_in_cache (cache_init sample_device) 9 = none → (c1.buffer_cache i).dirty = false)) ∧
    (∃ c2 k, cache_write_partial 65 (cache_init sample_device) 9 [88, 89] 4 2 = some c2 ∧
      is_in_cache c2 9 = some k ∧ (c2.buffer_cache k).accessed = true ∧
      (c2.buffer_cache k).dirty = true) :=
  flags_after_call 65 (cache_init sample_device) 9 [88, 89] 4 2 (by decide) (by decide)
    (by decide)

/-- C11 (sector uniqueness): in every state reached from `cache_init` by a
sequence of in-bounds API calls (`cache_read`, `cache_read_partial`,
`cache_write`, `cache_write_partial`, one at a time), two distinct slots of the
table name the same sector id only if it is the empty sentinel `UINT32_MAX`. -/
theorem sector_unique (dev : block_device) (calls : List cache_call) (fuel : Nat)
    (hf : BUFFER_CACHE_SIZE + 1 ≤ fuel)
    (hb : ∀ call, call ∈ calls → call_in_bounds call) :
    ∃ outs c, run fuel (cache_init dev) calls = some (outs, c) ∧
      ∀ i k, i < BUFFER_CACHE_SIZE → k < BUFFER_CACHE_SIZE → i ≠ k →
        (c.buffer_cache i).sector_id = (c.buffer_cache k).sector_id →
        (c.buffer_cache i).sector_id = UINT32_MAX := by
  obtain ⟨outs, c, hrun, _, hu⟩ := run_invariant_on fuel
    (fun c => c.hand < BUFFER_CACHE_SIZE ∧
      ∀ i k, i < BUFFER_CACHE_SIZE → k < BUFFER_CACHE_SIZE →
        (c.buffer_cache i).sector_id = (c.buffer_cache k).sector_id →
        (c.buffer_cache i).sector_id ≠ UINT32_MAX → i = k)
    call_in_bounds hf (fun _ h => h.1)
    (fun c call o c1 hc _ h => unique_step fuel c call o c1 hc h)
    calls (cache_init dev) ⟨Nat.zero_lt_succ 63, fun _ _ _ _ _ h => absurd rfl h⟩ hb
  refine ⟨outs, c, hrun, fun i k hi hk hik heq => ?_⟩
  by_contra hne
  exact hik (hu i k hi hk heq hne)

/-- Witness for C11: Scenario A's 65 reads followed by a write of sector 3 and a
write of the last four bytes of sector 7. -/
theorem sector_unique_witness :
    ∃ outs c,
      run 65 (cache_init sample_device)
        (scenario_reads ++
          [cache_call.rd 64, cache_call.wr 3 [1, 2], cache_call.wr_part 7 [7, 0, 0, 0] 508 4]) =
        some (outs, c) ∧
      ∀ i k, i < BUFFER_CACHE_SIZE → k < BUFFER_CACHE_SIZE → i ≠ k →
        (c.buffer_cache i).sector_id = (c.buffer_cache k).sector_id →
        (c.buffer_cache i).sector_id = UINT32_MAX :=
  sector_unique sample_device
    (scenario_reads ++
      [cache_call.rd 64, cache_call.wr 3 [1, 2], cache_call.wr_part 7 [7, 0, 0, 0] 508 4]) 65
    (by decide) (by decide)

/-- C18 (reader/writer admission invariant): in every state reached from
`cache_init` by a sequence of in-bounds API calls, every slot has `AW` equal to
0 or 1 and does not have `AW > 0` together with `AR > 0` (both counters are
still 0). -/
theorem admission_invariant (dev : block_device) (calls : List cache_call) (fuel : Nat)
    (hf : BUFFER_CACHE_SIZE + 1 ≤ fuel)
    (hb : ∀ call, call ∈ calls → call_in_bounds call) :
    ∃ outs c, run fuel (cache_init dev) calls = some (outs, c) ∧
      ∀ j, ((c.buffer_cache j).AW = 0 ∨ (c.buffer_cache j).AW = 1) ∧
        ¬ ((c.buffer_cache j).AW > 0 ∧ (c.buffer_cache j).AR > 0) := by
  obtain ⟨outs, c, hrun, _, hz⟩ := run_counters_zero dev calls fuel hf hb
  refine ⟨outs, c, hrun, fun j => ⟨Or.inl (hz j).2, fun h => ?_⟩⟩
  rw [(hz j).2] at h
  exact Nat.lt_irrefl 0 h.1

/-- Witness for C18: a read, a full write, a partial read and a 16-byte write
ending at the sector boundary, on the sample device. -/
theorem admission_invariant_witness :
    ∃ outs c,
      run 65 (cache_init sample_device)
        [cache_call.rd 3, cache_call.wr 4 [1], cache_call.rd_part 3 0 8,
          cache_call.wr_part 4 (List.replicate 16 2) 496 16] = some (outs, c) ∧
      ∀ j, ((c.buffer_cache j).AW = 0 ∨ (c.buffer_cache j).AW = 1) ∧
        ¬ ((c.buffer_cache j).AW > 0 ∧ (c.buffer_cache j).AR > 0) :=
  admission_invariant sample_device
    [cache_call.rd 3, cache_call.wr 4 [1], cache_call.rd_part 3 0 8,
      cache_call.wr_part 4 (List.replicate 16 2) 496 16] 65 (by decide) (by decide)

/-- C19 (cursor bounds): `cache_init` sets the cursor to 0; from a state with the
cursor in `[0, 64)`, a returning `cache_evict_id`, `cache_get_entry` or API call
leaves the cursor in `[0, 64)` and returns a slot index in `[0, 64)`, and a
lookup hit is an index in `[0, 64)`; so in every state reached from
`cache_init` the cursor, every lookup result and every victim index is in
`[0, 64)`. -/
theorem cursor_in_range (fuel : Nat) (c : cache_state) (hh : c.hand < BUFFER_CACHE_SIZE) :
    (∀ dev, (cache_init dev).hand = 0) ∧
    (∀ r c1, cache_evict_id fuel c = some (r, c1) →
      r < BUFFER_CACHE_SIZE ∧ c1.hand < BUFFER_CACHE_SIZE) ∧
    (∀ s i c1, cache_get_entry fuel c s = some (i, c1) →
      i < BUFFER_CACHE_SIZE ∧ c1.hand < BUFFER_CACHE_SIZE) ∧
    (∀ s i, is_in_cache c s = some i → i < BUFFER_CACHE_SIZE) ∧
    (∀ call o c1, do_call fuel c call = some (o, c1) → c1.hand < BUFFER_CACHE_SIZE) ∧
    (∀ dev calls outs c1, run fuel (cache_init dev) calls = some (outs, c1) →
      c1.hand < BUFFER_CACHE_SIZE ∧
      (∀ s i, is_in_cache c1 s = some i → i < BUFFER_CACHE_SIZE) ∧
      ∀ r c2, cache_evict_id fuel c1 = some (r, c2) →
        r < BUFFER_CACHE_SIZE ∧ c2.hand < BUFFER_CACHE_SIZE) := by
  have hev : ∀ (c0 : cache_state), c0.hand < BUFFER_CACHE_SIZE →
      ∀ r c1, cache_evict_id fuel c0 = some (r, c1) →
        r < BUFFER_CACHE_SIZE ∧ c1.hand < BUFFER_CACHE_SIZE := by
    intro c0 h0 r c1 h
    obtain ⟨h1, _, _, h4, _⟩ := cache_evict_id_frame fuel c0 r c1 h
    exact ⟨h4 h0, by rw [h1]; exact next_hand_lt r⟩
  refine ⟨fun _ => rfl, hev c hh, ?_, fun s i h => (is_in_cache_eq_some.mp h).1,
    fun call o c1 h => do_call_hand fuel c call o c1 h hh, ?_⟩
  · intro s i c1 h
    cases hl : is_in_cache c s with
    | some k =>
      rw [cache_get_entry_hit fuel c s k hl] at h
      simp only [Option.some.injEq, Prod.mk.injEq] at h
      rw [← h.1, ← h.2]
      exact ⟨(is_in_cache_eq_some.mp hl).1, hh⟩
    | none =>
      obtain ⟨_, h2, h3, _⟩ := cache_get_entry_miss_frame fuel c s i c1 hl h
      exact ⟨h2 hh, by rw [h3]; exact next_hand_lt i⟩
  · intro dev calls outs c1 hrun
    have h1 : c1.hand < BUFFER_CACHE_SIZE :=
      run_preserves fuel (fun c => c.hand < BUFFER_CACHE_SIZE) (fun _ => True)
        (fun c0 call o c2 h0 _ h => do_call_hand fuel c0 call o c2 h h0)
        calls (cache_init dev) outs c1 (Nat.zero_lt_succ 63) (fun _ _ => trivial) hrun
    exact ⟨h1, fun s i h => (is_in_cache_eq_some.mp h).1, hev c1 h1⟩

/-- Witness for C19: the state of Scenario B, whose cursor stands at 0 after 64
misses. -/
theorem cursor_in_range_witness :
    (∀ dev, (cache_init dev).hand = 0) ∧
    (∀ r c1, cache_evict_id 65 scenario_B_state = some (r, c1) →
      r < BUFFER_CACHE_SIZE ∧ c1.hand < BUFFER_CACHE_SIZE) ∧
    (∀ s i c1, cache_get_entry 65 scenario_B_state s = some (i, c1) →
      i < BUFFER_CACHE_SIZE ∧ c1.hand < BUFFER_CACHE_SIZE) ∧
    (∀ s i, is_in_cache scenario_B_state s = some i → i < BUFFER_CACHE_SIZE) ∧
    (∀ call o c1, do_call 65 scenario_B_state call = some (o, c1) →
      c1.hand < BUFFER_CACHE_SIZE) ∧
    (∀ dev calls outs c1, run 65 (cache_init dev) calls = some (outs, c1) →
      c1.hand < BUFFER_CACHE_SIZE ∧
      (∀ s i, is_in_cache c1 s = some i → i < BUFFER_CACHE_SIZE) ∧
      ∀ r c2, cache_evict_id 65 c1 = some (r, c2) →
        r < BUFFER_CACHE_SIZE ∧ c2.hand < BUFFER_CACHE_SIZE) :=
  cursor_in_range 65 scenario_B_state (by decide!)

/-- C17 as stated fails on a call that names the sentinel: on a cold cache
`cache_write (UINT32_MAX, _)` is a hit on slot 0 and leaves it dirty with sector
id `UINT32_MAX`; after 64 further reads that slot is evicted and written back to
sector `UINT32_MAX`. -/
theorem sentinel_slot_dirty :
    (run 65 (cache_init sample_device) [cache_call.wr UINT32_MAX [1]]).map
        (fun r => ((r.2.buffer_cache 0).dirty, (r.2.buffer_cache 0).sector_id)) =
      some (true, UINT32_MAX) ∧
    (run 65 (cache_init sample_device) (cache_call.wr UINT32_MAX [1] :: scenario_reads)).map
        (fun r => r.2.fs_device.log.filterMap
          (fun op => match op with
            | block_op.write t _ => some t
            | block_op.read _ => none)) =
      some [UINT32_MAX] := by
  exact ⟨by decide!, by decide!⟩

/-- C17 (dirty implies resident), amended: in every state reached from
`cache_init` by a sequence of in-bounds API calls on sectors other than
`UINT32_MAX`, every dirty slot holds a sector id other than `UINT32_MAX`, and no
`block_write` issued since `cache_init` targets sector `UINT32_MAX`. -/
theorem dirty_implies_resident (dev : block_device) (calls : List cache_call) (fuel : Nat)
    (hf : BUFFER_CACHE_SIZE + 1 ≤ fuel)
    (hs : ∀ call, call ∈ calls → call_sector call ≠ UINT32_MAX ∧ call_in_bounds call) :
    ∃ outs c, run fuel (cache_init dev) calls = some (outs, c) ∧
      (∀ j, (c.buffer_cache j).dirty = true → (c.buffer_cache j).sector_id ≠ UINT32_MAX) ∧
      ∃ extra, c.fs_device.log = dev.log ++ extra ∧
        ∀ t b, block_op.write t b ∈ extra → t ≠ UINT32_MAX := by
  obtain ⟨outs, c, hrun, _, hd, hlog⟩ := run_invariant_on fuel (dirty_inv dev)
    (fun call => call_sector call ≠ UINT32_MAX ∧ call_in_bounds call) hf (fun _ h => h.1)
    (fun c call o c1 hc hq h => dirty_inv_step fuel dev c call o c1 hc hq.1 h)
    calls (cache_init dev)
    ⟨Nat.zero_lt_succ 63, fun _ h => absurd h Bool.false_ne_true, [],
      (List.append_nil _).symm, fun _ _ h => absurd h (List.not_mem_nil _)⟩ hs
  exact ⟨outs, c, hrun, hd, hlog⟩

/-- Witness for C17: Scenario B's calls followed by the read of sector 64, which
evicts the dirty slot holding sector 0, and a write of the last byte of
sector 7. -/
theorem dirty_implies_resident_witness :
    ∃ outs c,
      run 65 (cache_init sample_device)
        (scenario_reads ++
          [cache_call.wr 0 [7, 7], cache_call.rd 64, cache_call.wr_part 7 [1] 511 1]) =
        some (outs, c) ∧
      (∀ j, (c.buffer_cache j).dirty = true → (c.buffer_cache j).sector_id ≠ UINT32_MAX) ∧
      ∃ extra, c.fs_device.log = sample_device.log ++ extra ∧
        ∀ t b, block_op.write t b ∈ extra → t ≠ UINT32_MAX :=
  dirty_implies_resident sample_device
    (scenario_reads ++
      [cache_call.wr 0 [7, 7], cache_call.rd 64, cache_call.wr_part 7 [1] 511 1]) 65
    (by decide) (by decide)

/-- C20 (reads never modify the device): from `cache_init` over any device, after
any sequence of in-bounds `cache_read` and `cache_read_partial` calls the device
contents are those at the start, every device call issued is a `block_read`, and
no slot is dirty, at the end and after every prefix of the sequence. -/
theorem reads_keep_device (dev : block_device) (calls : List cache_call) (fuel : Nat)
    (hf : BUFFER_CACHE_SIZE + 1 ≤ fuel)
    (hr : ∀ call, call ∈ calls → call_is_read call = true ∧ call_in_bounds call) :
    (∃ outs c, run fuel (cache_init dev) calls = some (outs, c) ∧
      c.fs_device.contents = dev.contents ∧
      (∃ extra, c.fs_device.log = dev.log ++ extra ∧
        ∀ op, op ∈ extra → ∃ t, op = block_op.read t) ∧
      ∀ j, (c.buffer_cache j).dirty = false) ∧
    ∀ n, ∃ outs c, run fuel (cache_init dev) (calls.take n) = some (outs, c) ∧
      ∀ j, (c.buffer_cache j).dirty = false := by
  have key : ∀ l : List cache_call, (∀ call, call ∈ l → call_is_read call = true) →
      ∃ outs c, run fuel (cache_init dev) l = some (outs, c) ∧ read_only_inv dev c :=
    fun l hl => run_invariant_on fuel (read_only_inv dev) (fun call => call_is_read call = true)
      hf (fun _ h => h.1)
      (fun c call o c1 hc hq h => read_only_inv_step fuel dev c call o c1 hc hq h)
      l (cache_init dev)
      ⟨Nat.zero_lt_succ 63, fun _ => rfl, rfl, [], (List.append_nil _).symm,
        fun _ h => absurd h (List.not_mem_nil _)⟩ hl
  refine ⟨?_, fun n => ?_⟩
  · obtain ⟨outs, c, hrun, _, hd, hcont, hlog⟩ := key calls (fun call h => (hr call h).1)
    exact ⟨outs, c, hrun, hcont, hlog, hd⟩
  · obtain ⟨outs, c, hrun, _, hd, _⟩ :=
      key (calls.take n) (fun call h => (hr call (List.mem_of_mem_take h)).1)
    exact ⟨outs, c, hrun, hd⟩

/-- Witness for C20: Scenario A's 65 reads, the last of which evicts. -/
theorem reads_keep_device_witness :
    (∃ outs c,
      run 65 (cache_init sample_device) (scenario_reads ++ [cache_call.rd 64]) =
        some (outs, c) ∧
      c.fs_device.contents = sample_device.contents ∧
      (∃ extra, c.fs_device.log = sample_device.log ++ extra ∧
        ∀ op, op ∈ extra → ∃ t, op = block_op.read t) ∧
      ∀ j, (c.buffer_cache j).dirty = false) ∧
    ∀ n, ∃ outs c,
      run 65 (cache_init sample_device) ((scenario_reads ++ [cache_call.rd 64]).take n) =
        some (outs, c) ∧
      ∀ j, (c.buffer_cache j).dirty = false :=
  reads_keep_device sample_device (scenario_reads ++ [cache_call.rd 64]) 65 (by decide)
    (by decide)

/-- C16 (fill order): in every state reached from `cache_init` by in-bounds calls
on sectors other than `UINT32_MAX`, if some slot is still unused then on a miss
`cache_get_entry` returns the lowest-indexed unused slot, renames it to the new
sector, leaves every other slot as it was and issues no device call. -/
theorem fill_order (dev : block_device) (calls : List cache_call) (fuel : Nat)
    (hf : BUFFER_CACHE_SIZE + 1 ≤ fuel)
    (hc : ∀ call, call ∈ calls → call_sector call ≠ UINT32_MAX ∧ call_in_bounds call) :
    ∃ outs c, run fuel (cache_init dev) calls = some (outs, c) ∧
      ∀ s, is_in_cache c s = none →
        (∃ i, i < BUFFER_CACHE_SIZE ∧ (c.buffer_cache i).sector_id = UINT32_MAX) →
        ∃ k c2, k < BUFFER_CACHE_SIZE ∧ (c.buffer_cache k).sector_id = UINT32_MAX ∧
          (∀ j, j < k → (c.buffer_cache j).sector_id ≠ UINT32_MAX) ∧
          cache_get_entry fuel c s = some (k, c2) ∧ (c2.buffer_cache k).sector_id = s ∧
          (∀ j, j ≠ k → c2.buffer_cache j = c.buffer_cache j) ∧
          c2.fs_device = c.fs_device := by
  have hf1 : 1 ≤ fuel := by omega
  obtain ⟨outs, c, hrun, hh, k, hk, hhand, hlow, hhigh⟩ := run_invariant_on fuel fill_inv
    (fun call => call_sector call ≠ UINT32_MAX) hf (fun _ h => h.1)
    (fun c call o c1 hinv hq h => fill_inv_step fuel c call o c1 hf1 hinv hq h)
    calls (cache_init dev) (fill_inv_init dev) (fun call h => (hc call h).1)
  refine ⟨outs, c, hrun, fun s hm hfree => ?_⟩
  obtain ⟨i, hi, hsi⟩ := hfree
  have hk64 : k < BUFFER_CACHE_SIZE := by
    by_contra hge
    exact hlow i (by omega) hsi
  have hck : c.hand = k := hhand hk64
  obtain ⟨a1, a2, a3⟩ := hhigh k (Nat.le_refl k)
  obtain ⟨c2, hg, _, g2, g3, g4⟩ := cache_get_entry_fill fuel c s hf1 hm
    (by rw [hck]; exact a2) (by rw [hck]; exact a3)
  rw [hck] at hg g3 g4
  exact ⟨k, c2, hk64, a1, hlow, hg, g3, g4, g2⟩

/-- Witness for C16: three sectors read or written on a cold cache, with 61
slots still unused. -/
theorem fill_order_witness :
    ∃ outs c,
      run 65 (cache_init sample_device)
        [cache_call.rd 5, cache_call.wr 9 [1, 2], cache_call.rd_part 7 0 16, cache_call.rd 5] =
        some (outs, c) ∧
      ∀ s, is_in_cache c s = none →
        (∃ i, i < BUFFER_CACHE_SIZE ∧ (c.buffer_cache i).sector_id = UINT32_MAX) →
        ∃ k c2, k < BUFFER_CACHE_SIZE ∧ (c.buffer_cache k).sector_id = UINT32_MAX ∧
          (∀ j, j < k → (c.buffer_cache j).sector_id ≠ UINT32_MAX) ∧
          cache_get_entry 65 c s = some (k, c2) ∧ (c2.buffer_cache k).sector_id = s ∧
          (∀ j, j ≠ k → c2.buffer_cache j = c.buffer_cache j) ∧
          c2.fs_device = c.fs_device :=
  fill_order sample_device
    [cache_call.rd 5, cache_call.wr 9 [1, 2], cache_call.rd_part 7 0 16, cache_call.rd 5] 65
    (by decide) (by decide)

end BufferCache
